import Mathlib

/-!
# chatserver.go: connection lifecycle and broadcast dispatch

A shallow embedding of `chatserver.go` (one `Server`, its `listen` and
`mainHandler` loops, and the per-connection `close`, `handleInput` and
`handleOutput`), followed by the properties proved about it.

Modelling conventions.

* A `*Connection` is the address (a `Nat`) of a `Connection` object; the
  objects live in `World.heap`.
* `uint32` values are `Nat`s, reduced modulo `2^32` where the program does
  arithmetic on them (`nextID++`).
* A Go `string` / `[]byte` is a list of bytes.
* `conn.output` is an unbuffered channel (`make(chan string)`): a send
  completes only by handing the value to a goroutine parked in a receive,
  panics on a closed channel, and otherwise parks the sender.
* `server.events` and `server.messages` are buffered channels; they are FIFO
  lists of the values sent and not yet received.  Their buffer bound (128)
  only delays a sender and is not represented.
* Every goroutine body is a function of the answers its environment gives it
  (accept results, read results, received payloads, write results).
* The loop of `mainHandler` is run step by step among the steps of the other
  goroutines that act on what it reads: readers returning to the receive of
  their queue, and the statements of calls of `close`.
-/

namespace ChatServer

/-- Bytes of a Go `string` or `[]byte`. -/
abbrev Bytes := List (Fin 256)

/-- Number of values of a `uint32`. -/
def uint32Size : Nat := 4294967296

/-- `kNewConnection = iota` (0). -/
def kNewConnection : Int := 0

/-- `kConnectionClosed = iota` (1). -/
def kConnectionClosed : Int := 1

/-- The `net.Conn` of a connection as shared state: how many times `Close()`
was called on it. What its `Read` and `Write` calls return is given to
`handleInput` and `handleOutput` as input. -/
structure NetConn where
  closeCalls : Nat
deriving DecidableEq, Repr

/-- An unbuffered `chan string`: whether it was closed, whether a goroutine is
parked in a receive on it, and the values whose send has completed. -/
structure Chan where
  closed : Bool
  receiver : Bool
  sent : List Bytes
deriving DecidableEq, Repr

/-- The struct `Connection` (field `open` is `isOpen`; the back-reference
`server` is the one server of the `World`). -/
structure Connection where
  id : Nat
  connection : NetConn
  output : Chan
  isOpen : Bool
deriving DecidableEq, Repr

/-- The struct `ConnectionEvent`; `connection` is a pointer. -/
structure ConnectionEvent where
  eventType : Int
  connection : Nat
deriving DecidableEq, Repr

/-- The struct `ConnectionMessage`; `connection` is a pointer. -/
structure ConnectionMessage where
  message : Bytes
  connection : Nat
deriving DecidableEq, Repr

/-- The struct `Server` without `host` and `port`: the two intake channels and
the map `connections` (key, pointer), in some iteration order. -/
structure Server where
  events : List ConnectionEvent
  messages : List ConnectionMessage
  connections : List (Nat × Nat)
deriving DecidableEq, Repr

/-- The shared state: the server, the `Connection` objects by address, and the
connections for which `mainHandler` has spawned `handleInput` and
`handleOutput`. -/
structure World where
  server : Server
  heap : Nat → Connection
  started : List Nat

/-- How a piece of code ends: it ran to its end, it is parked in a send on the
`output` channel of `conn`, or it panicked. Each carries the state reached. -/
inductive Outcome where
  | done (w : World)
  | blocked (conn : Nat) (w : World)
  | panic (w : World)

/-- The state an outcome carries. -/
def Outcome.world : Outcome → World
  | .done w => w
  | .blocked _ w => w
  | .panic w => w

/-- Whether the code ran to its end. -/
def Outcome.isDone : Outcome → Bool
  | .done _ => true
  | _ => false

/-- Whether the code panicked. -/
def Outcome.isPanic : Outcome → Bool
  | .panic _ => true
  | _ => false

/-- Whether the code is parked in a send, and on which connection. -/
def Outcome.blockedOn : Outcome → Option Nat
  | .blocked conn _ => some conn
  | _ => none

/-- Store `c` at address `p`. -/
def World.setConn (w : World) (p : Nat) (c : Connection) : World :=
  { w with heap := fun q => if q = p then c else w.heap q }

/-! ## The map `connections` -/

/-- Keys of the map. -/
def mapKeys (m : List (Nat × Nat)) : List Nat := m.map Prod.fst

/-- Pointers stored in the map. -/
def mapValues (m : List (Nat × Nat)) : List Nat := m.map Prod.snd

/-- The value `m[k]`, if present. -/
def mapGet? (m : List (Nat × Nat)) (k : Nat) : Option Nat :=
  (m.find? (fun e => e.1 == k)).map Prod.snd

/-- The builtin `delete(m, k)`. -/
def mapDelete (m : List (Nat × Nat)) (k : Nat) : List (Nat × Nat) :=
  m.filter (fun e => e.1 != k)

/-- The assignment `m[k] = v`. -/
def mapInsert (m : List (Nat × Nat)) (k v : Nat) : List (Nat × Nat) :=
  mapDelete m k ++ [(k, v)]

/-! ## The channel `conn.output` -/

/-- Result of the statement `ch <- m` on an unbuffered channel. -/
inductive SendResult where
  | delivered (ch : Chan)
  | blocks
  | panics
deriving DecidableEq

/-- The channel after its parked receiver has taken `m`. -/
def Chan.deliver (ch : Chan) (m : Bytes) : Chan :=
  { ch with receiver := false, sent := ch.sent ++ [m] }

/-- The statement `ch <- m`: panics on a closed channel, hands `m` to the
parked receiver if there is one, and otherwise parks the sender. -/
def Chan.send (ch : Chan) (m : Bytes) : SendResult :=
  if ch.closed then .panics
  else if ch.receiver then .delivered (ch.deliver m)
  else .blocks

/-! ## `Server.mainHandler` -/

/-- What one `select` of `mainHandler` yields: a value of `server.events`, a
value of `server.messages`, or the `default` branch. -/
inductive Received where
  | event (evt : ConnectionEvent)
  | message (msg : ConnectionMessage)
  | idle
deriving DecidableEq

/-- The loop `for id, conn := range(server.connections)` of the message case,
over the entries still to be visited. -/
def fanOut (srcConn : Nat) (message : Bytes) : World → List (Nat × Nat) → Outcome
  | w, [] => .done w
  | w, (id, conn) :: rest =>
    if id ≠ (w.heap srcConn).id then
      match (w.heap conn).output.send message with
      | .delivered ch => fanOut srcConn message (w.setConn conn { w.heap conn with output := ch }) rest
      | .blocks => .blocked conn w
      | .panics => .panic w
    else fanOut srcConn message w rest

/-- One iteration of the `for { select { ... } }` of `mainHandler`. -/
def mainHandlerStep (w : World) : Received → Outcome
  | .event evt =>
    let conn := evt.connection
    if evt.eventType = kNewConnection then
      .done { w with
        server := { w.server with
          connections := mapInsert w.server.connections (w.heap conn).id conn }
        started := w.started ++ [conn] }
    else if evt.eventType = kConnectionClosed then
      .done { w with
        server := { w.server with
          connections := mapDelete w.server.connections (w.heap conn).id } }
    else .done w
  | .message msg => fanOut msg.connection msg.message w w.server.connections
  | .idle => .done w

/-! ## `Connection.close` -/

/-- Line 137, `conn.server.events <- ConnectionEvent{kConnectionClosed, conn}`. -/
def closeNotify (w : World) (conn : Nat) : World :=
  { w with
    server := { w.server with
      events := w.server.events ++ [{ eventType := kConnectionClosed, connection := conn }] } }

/-- Line 138, `conn.connection.Close()`; its error result is dropped. -/
def closeStream (w : World) (conn : Nat) : World :=
  w.setConn conn
    { w.heap conn with
      connection :=
        { (w.heap conn).connection with
          closeCalls := (w.heap conn).connection.closeCalls + 1 } }

/-- Line 139, `close(conn.output)`: `none` is the panic of closing a closed
channel; closing wakes the parked receiver. -/
def closeOutput (w : World) (conn : Nat) : Option World :=
  if (w.heap conn).output.closed then none
  else some (w.setConn conn
    { w.heap conn with
      output := { (w.heap conn).output with closed := true, receiver := false } })

/-- Line 140, `conn.open = false`. -/
def clearOpen (w : World) (conn : Nat) : World :=
  w.setConn conn { w.heap conn with isOpen := false }

/-- The method `close` run by one goroutine with no other goroutine acting in
between. -/
def Connection.close (w : World) (conn : Nat) : Outcome :=
  if (w.heap conn).isOpen then
    match closeOutput (closeStream (closeNotify w conn) conn) conn with
    | some w3 => .done (clearOpen w3 conn)
    | none => .panic (closeStream (closeNotify w conn) conn)
  else .done w

/-- The call `conn.close()` made `n` times in succession. -/
def closeTimes (conn : Nat) : Nat → World → Outcome
  | 0, w => .done w
  | n + 1, w =>
    match Connection.close w conn with
    | .done w1 => closeTimes conn n w1
    | o => o

/-- Program points of one call of `close`: before the test of `conn.open`,
before each of the four statements of the body, and after the return. -/
inductive ClosePc where
  | test
  | notify
  | stream
  | output
  | clear
  | returned
deriving DecidableEq, Repr

/-- One statement of a call of `close` that stands at program point `pc`. -/
def closeStep (conn : Nat) (w : World) : ClosePc → Outcome × ClosePc
  | .test => if (w.heap conn).isOpen then (.done w, .notify) else (.done w, .returned)
  | .notify => (.done (closeNotify w conn), .stream)
  | .stream => (.done (closeStream w conn), .output)
  | .output =>
    match closeOutput w conn with
    | some w1 => (.done w1, .clear)
    | none => (.panic w, .output)
  | .clear => (.done (clearOpen w conn), .returned)
  | .returned => (.done w, .returned)

/-- Two calls of `conn.close()`, one by `handleInput` (`false`) and one by
`handleOutput` (`true`), run statement by statement in the order the schedule
gives; a panic ends the run. The result carries the program points reached. -/
def closeConcurrently (conn : Nat) : World → ClosePc → ClosePc → List Bool → Outcome × ClosePc × ClosePc
  | w, a, b, [] => (.done w, a, b)
  | w, a, b, false :: sched =>
    match closeStep conn w a with
    | (.done w1, a1) => closeConcurrently conn w1 a1 b sched
    | (o, a1) => (o, a1, b)
  | w, a, b, true :: sched =>
    match closeStep conn w b with
    | (.done w1, b1) => closeConcurrently conn w1 a b1 sched
    | (o, b1) => (o, a, b1)

/-! ## The loop of `mainHandler` among the other goroutines -/

/-- The goroutine of `mainHandler` with the shared state. `fanning` is `none`
while it stands at its `select`; inside the `range` loop of the message case
it holds the sender, the payload and the entries the loop has still to visit
(it is parked in the send to the first of them when that send finds no
receiver). `crashed` is set once a panic has killed the process. -/
structure Dispatcher where
  world : World
  fanning : Option (Nat × Bytes × List (Nat × Nat))
  crashed : Bool

/-- The loop state with the entries `rest` still to visit: back at the
`select` when none is left. -/
def rangeOver (srcConn : Nat) (message : Bytes) (rest : List (Nat × Nat)) :
    Option (Nat × Bytes × List (Nat × Nat)) :=
  if rest = [] then none else some (srcConn, message, rest)

/-- One step of the program as `mainHandler` sees it.
`select x`: its `select` takes `x` (for a message it enters the `range`
loop). `iterate`: one iteration of the `range` loop of lines 119 to 123.
`reader conn`: `handleOutput` of `conn` arrives at the receive of its `range`.
`closing conn pc`: some goroutine executes the statement at program point `pc`
of a call of `conn.close()`. -/
inductive Step where
  | select (x : Received)
  | iterate
  | reader (conn : Nat)
  | closing (conn : Nat) (pc : ClosePc)
deriving DecidableEq

/-- The effect of a step, `none` when the program cannot make it: `select`
needs `mainHandler` at its `select`, `iterate` needs it inside the `range`
loop, and nothing moves after a panic. The values the `select` takes are given
with the step. An iteration whose send finds no receiver parked leaves the
state as it is: the send has not happened, and the iteration can be made again
once the reader has come. A reader that finds its queue closed leaves its
`range`. Which call of `close` stands at which program point is not recorded,
so that the steps cover every interleaving of any number of `close` calls. -/
def Dispatcher.step (d : Dispatcher) : Step → Option Dispatcher
  | .select x =>
    if d.crashed then none
    else
      match d.fanning with
      | some _ => none
      | none =>
        match x with
        | .message msg =>
          some { d with
            fanning := rangeOver msg.connection msg.message d.world.server.connections }
        | x =>
          match mainHandlerStep d.world x with
          | .done w => some { d with world := w }
          | .panic w => some { d with world := w, crashed := true }
          | .blocked _ _ => none
  | .iterate =>
    if d.crashed then none
    else
      match d.fanning with
      | none => none
      | some (_, _, []) => some { d with fanning := none }
      | some (srcConn, message, e :: rest) =>
        match fanOut srcConn message d.world [e] with
        | .done w => some { d with world := w, fanning := rangeOver srcConn message rest }
        | .blocked _ _ => some d
        | .panic w => some { d with world := w, crashed := true }
  | .reader conn =>
    if d.crashed then none
    else if (d.world.heap conn).output.closed then some d
    else
      some { d with
        world := d.world.setConn conn
          { d.world.heap conn with
            output := { (d.world.heap conn).output with receiver := true } } }
  | .closing conn pc =>
    if d.crashed then none
    else
      match (closeStep conn d.world pc).1 with
      | .done w => some { d with world := w }
      | .panic w => some { d with world := w, crashed := true }
      | .blocked _ _ => none

/-- The loop of `mainHandler` of lines 94 to 129, run among the other
goroutines: the steps of a list made one after the other. -/
def mainHandler : Dispatcher → List Step → Option Dispatcher
  | d, [] => some d
  | d, s :: steps =>
    match d.step s with
    | some d1 => mainHandler d1 steps
    | none => none

/-- The values the `select` of `mainHandler` takes in a run, in order: the
events and messages it processes. -/
def selected : List Step → List Received
  | [] => []
  | .select x :: steps => x :: selected steps
  | _ :: steps => selected steps

/-- The dispatcher at its `select` in the state `w`. -/
def atSelect (w : World) : Dispatcher :=
  { world := w, fanning := none, crashed := false }

/-! ## `Server.listen` -/

/-- Lines 79 to 84: the object `listen` creates for an accepted `conn`. -/
def newConnection (nextID : Nat) (conn : NetConn) : Connection :=
  { id := nextID
    connection := conn
    output := { closed := false, receiver := false, sent := [] }
    isOpen := true }

/-- The accept loop of `listen` from the counter value `nextID`, over the
results of its successive `Accept` calls (`none` is an error): the objects it
creates, in order. It sends one `kNewConnection` event for each. -/
def listen (nextID : Nat) : List (Option NetConn) → List Connection
  | [] => []
  | none :: rest => listen nextID rest
  | some conn :: rest =>
    newConnection ((nextID + 1) % uint32Size) conn :: listen ((nextID + 1) % uint32Size) rest

/-- A fresh `net.Conn`. -/
def freshConn : NetConn := { closeCalls := 0 }

/-! ## `Connection.handleInput` -/

/-- Size of the buffers `make([]byte, 1024)`. -/
def bufferSize : Nat := 1024

/-- The buffer `make([]byte, 1024)`. -/
def newBuffer : Bytes := List.replicate bufferSize 0

/-- What one `Read` returns: the bytes it read (it reports their number) and
whether its error is non-nil. -/
structure ReadResult where
  data : Bytes
  err : Bool
deriving DecidableEq, Repr

/-- The buffer after `Read(buffer)` stored `data` at its start. -/
def readInto (buffer data : Bytes) : Bytes :=
  data.take buffer.length ++ buffer.drop data.length

/-- The number `read` that `Read(buffer)` reports. -/
def readCount (buffer data : Bytes) : Nat := min data.length buffer.length

/-- Line 154: the message built from a read without error. -/
def inputMessage (conn : Nat) (buffer : Bytes) (r : ReadResult) : ConnectionMessage :=
  { connection := conn, message := (readInto buffer r.data).take (readCount buffer r.data) }

/-- What a run of `handleInput` did: the messages it sent to
`server.messages`, in order, the number of `Read` calls that returned, and
whether it left the loop and called `conn.close()`. -/
structure InputRun where
  forwarded : List ConnectionMessage
  reads : Nat
  closeCalled : Bool
deriving DecidableEq, Repr

/-- The loop of `handleInput` over the results of its successive `Read` calls.
When the results run out the goroutine is parked in `Read`. -/
def handleInputLoop (conn : Nat) : Bytes → List ReadResult → InputRun
  | _, [] => { forwarded := [], reads := 0, closeCalled := false }
  | buffer, r :: rest =>
    if r.err then { forwarded := [], reads := 1, closeCalled := true }
    else
      let run := handleInputLoop conn (readInto buffer r.data) rest
      { run with
        forwarded := inputMessage conn buffer r :: run.forwarded
        reads := run.reads + 1 }

/-- The method `handleInput` of the connection at `conn`. -/
def handleInput (conn : Nat) (reads : List ReadResult) : InputRun :=
  handleInputLoop conn newBuffer reads

/-! ## `Connection.handleOutput` -/

/-- The builtin `copy(buffer, message)`: the buffer after the copy and the
number of bytes copied. -/
def copyInto (buffer message : Bytes) : Bytes × Nat :=
  (message.take buffer.length ++ buffer.drop message.length, min buffer.length message.length)

/-- What a run of `handleOutput` did: the arguments of its `Write` calls, in
order, and whether it left the loop and called `conn.close()`. -/
structure OutputRun where
  writes : List Bytes
  closeCalled : Bool
deriving DecidableEq, Repr

/-- The loop of `handleOutput` over the values its `range conn.output` yields
before the channel is closed, each with whether the `Write` of it returns an
error. -/
def handleOutputLoop : Bytes → List (Bytes × Bool) → OutputRun
  | _, [] => { writes := [], closeCalled := true }
  | buffer, (message, err) :: rest =>
    let copied := copyInto buffer message
    if err then { writes := [copied.1.take copied.2], closeCalled := true }
    else
      let run := handleOutputLoop copied.1 rest
      { run with writes := copied.1.take copied.2 :: run.writes }

/-- The method `handleOutput`. -/
def handleOutput (received : List (Bytes × Bool)) : OutputRun :=
  handleOutputLoop newBuffer received

/-! ## The goroutines together -/

/-- The program while it runs: the shared state, the local `nextID` of
`listen`, the number of `Connection` objects created, the connections whose
`handleInput` has returned, and whether the process died of a panic. -/
structure System where
  world : World
  nextID : Nat
  allocated : Nat
  inputExited : List Nat
  crashed : Bool

/-- The state `main` sets up: `init` has made the channels and the map. -/
def System.start : System :=
  { world :=
      { server := { events := [], messages := [], connections := [] }
        heap := fun _ => newConnection 0 freshConn
        started := [] }
    nextID := 0
    allocated := 0
    inputExited := []
    crashed := false }

/-- One step of one goroutine. -/
inductive Move where
  | accept (result : Option NetConn)
  | selectEvent
  | selectMessage
  | read (conn : Nat) (r : ReadResult)
  | receive (conn : Nat)
deriving DecidableEq

/-- The effect of a move, `none` when the goroutine cannot make it in this
state: `accept` is an iteration of `listen`; `selectEvent` and `selectMessage`
are an iteration of `mainHandler` whose `select` takes the head of that
channel (a send that parks the dispatcher is not a completed move);
`read` is an iteration of a running `handleInput`, whose `close` call runs
without interruption (the message it builds does not depend on what its
buffer held before, so the buffer is not kept here); `receive` parks a running
`handleOutput` in the receive of its `range`. Nothing moves after a panic. -/
def System.step (s : System) : Move → Option System
  | .accept none => if s.crashed then none else some s
  | .accept (some conn) =>
    if s.crashed then none
    else
      let nextID := (s.nextID + 1) % uint32Size
      let w := s.world.setConn s.allocated (newConnection nextID conn)
      some { s with
        world := { w with
          server := { w.server with
            events := w.server.events ++ [{ eventType := kNewConnection, connection := s.allocated }] } }
        nextID := nextID
        allocated := s.allocated + 1 }
  | .selectEvent =>
    if s.crashed then none
    else
      match s.world.server.events with
      | [] => none
      | evt :: rest =>
        match mainHandlerStep { s.world with server := { s.world.server with events := rest } } (.event evt) with
        | .done w => some { s with world := w }
        | .panic w => some { s with world := w, crashed := true }
        | .blocked _ _ => none
  | .selectMessage =>
    if s.crashed then none
    else
      match s.world.server.messages with
      | [] => none
      | msg :: rest =>
        match mainHandlerStep { s.world with server := { s.world.server with messages := rest } } (.message msg) with
        | .done w => some { s with world := w }
        | .panic w => some { s with world := w, crashed := true }
        | .blocked _ _ => none
  | .read conn r =>
    if s.crashed ∨ conn ∉ s.world.started ∨ conn ∈ s.inputExited then none
    else if r.err then
      match Connection.close s.world conn with
      | .done w => some { s with world := w, inputExited := conn :: s.inputExited }
      | .panic w => some { s with world := w, crashed := true }
      | .blocked _ _ => none
    else
      some { s with
        world := { s.world with
          server := { s.world.server with
            messages := s.world.server.messages ++ [inputMessage conn newBuffer r] } } }
  | .receive conn =>
    if s.crashed ∨ conn ∉ s.world.started ∨ (s.world.heap conn).output.closed then none
    else
      some { s with
        world := s.world.setConn conn
          { s.world.heap conn with
            output := { (s.world.heap conn).output with receiver := true } } }

/-- The moves of a list made one after the other. -/
def System.run : System → List Move → Option System
  | s, [] => some s
  | s, m :: ms =>
    match s.step m with
    | some s1 => System.run s1 ms
    | none => none

/-! ## States and inputs used in the examples -/

/-- A state with an empty table whose objects at addresses 0, 1, 2, ... carry
the identities 1, 2, 3, ... and have `handleOutput` parked in its receive. -/
def readyWorld : World :=
  { server := { events := [], messages := [], connections := [] }
    heap := fun p =>
      { id := p + 1
        connection := freshConn
        output := { closed := false, receiver := true, sent := [] }
        isOpen := true }
    started := [] }

/-- A state with an empty table in which the objects at addresses 0 and 1 both
carry identity 1, as the first and the `2^32 + 1`-st object made by `listen`
do. -/
def sharedIdWorld : World :=
  { server := { events := [], messages := [], connections := [] }
    heap := fun _ => newConnection 1 freshConn
    started := [] }

/-- The event `Connected(c)`. -/
def connected (c : Nat) : Received :=
  .event { eventType := kNewConnection, connection := c }

/-- The event `Disconnected(c)`. -/
def disconnected (c : Nat) : Received :=
  .event { eventType := kConnectionClosed, connection := c }

/-- The bytes of "hello". -/
def hello : Bytes := [104, 101, 108, 108, 111]

/-- The state `readyWorld` with the connections at addresses 0, 1, 2
(identities 1, 2, 3) in the table. -/
def threeClients : World :=
  { readyWorld with
    server := { readyWorld.server with connections := [(1, 0), (2, 1), (3, 2)] }
    started := [0, 1, 2] }

/-- The state `threeClients` in which `handleOutput` of the connection at
address 1 is not parked in its receive (it is busy in a `Write`). -/
def slowClient : World :=
  threeClients.setConn 1
    { threeClients.heap 1 with output := { closed := false, receiver := false, sent := [] } }

/-- A schedule in which `handleOutput` enters `close` after `handleInput` has
closed the queue (which ends the `range` of `handleOutput`) and before it has
cleared `conn.open`. -/
def racySchedule : List Bool := [false, false, false, false, true, true, true, true]

/-- A schedule in which the call of `handleInput` returns before the call of
`handleOutput` starts. -/
def serialSchedule : List Bool := [false, false, false, false, false, true]

/-- Two clients are accepted and registered; the client of identity 2 sends
"hello"; the `Read` of the client of identity 1 fails, so that its
`handleInput` calls `close`. -/
def teardownBeforeMessage : List Move :=
  [ .accept (some freshConn), .accept (some freshConn), .selectEvent, .selectEvent,
    .read 1 { data := hello, err := false }, .read 0 { data := [], err := true } ]

/-- The identities of the objects `listen` creates, in accept order. -/
def listenIds (accepts : List (Option NetConn)) : List Nat :=
  (listen 0 accepts).map (fun c => c.id)

/-- The number of `Accept` calls that succeeded. -/
def successes (accepts : List (Option NetConn)) : Nat :=
  accepts.countP Option.isSome

/-- As many successful `Accept` calls as a `uint32` has values, and one more. -/
def manyAccepts : List (Option NetConn) :=
  List.replicate (uint32Size + 1) (some freshConn)

/-- A payload of 1025 bytes. -/
def longPayload : Bytes := List.replicate 1025 7

/-- The state `threeClients` in which `handleOutput` of the connection at
address 2 is not parked in its receive (it is busy in a `Write`). -/
def busyReader : World :=
  threeClients.setConn 2
    { threeClients.heap 2 with output := { closed := false, receiver := false, sent := [] } }

/-- The message "hello" from the connection at address `conn`. -/
def helloFrom (conn : Nat) : Received :=
  .message { message := hello, connection := conn }

/-- The handling of "hello" from the connection at address 1 in `busyReader`:
the loop passes two entries, is parked in the send to the third until its
reader has come, and ends. -/
def resumedHandling : List Step :=
  [.select (helloFrom 1), .iterate, .iterate, .iterate, .reader 2, .iterate]

/-- A run from `readyWorld`: two clients are registered; the client at
address 0 sends "hello" twice, and the second send to the client at address 1
is parked until its reader has come back; the client at address 0 is torn
down and its `Disconnected` event processed; the client at address 1 sends
"hello". -/
def twoDeliveries : List Step :=
  [ .select (connected 0), .select (connected 1),
    .select (helloFrom 0), .iterate, .iterate,
    .select (helloFrom 0), .iterate, .iterate, .reader 1, .iterate,
    .closing 0 .test, .closing 0 .notify, .closing 0 .stream, .closing 0 .output,
    .closing 0 .clear,
    .select (disconnected 0),
    .select (helloFrom 1), .iterate ]

/-- The run `Connected(0)`, `Connected(1)`, `Disconnected(0)`. -/
def sharedIdRun : List Step :=
  [.select (connected 0), .select (connected 1), .select (disconnected 0)]

set_option maxRecDepth 20000

/-! ## Lemmas on the map -/

theorem mem_mapKeys_mapDelete (m : List (Nat × Nat)) (k j : Nat) :
    j ∈ mapKeys (mapDelete m k) ↔ j ≠ k ∧ j ∈ mapKeys m := by
  simp only [mapKeys, mapDelete, List.mem_map, List.mem_filter]
  constructor
  · rintro ⟨e, ⟨he, hk⟩, rfl⟩
    exact ⟨by simpa using hk, e, he, rfl⟩
  · rintro ⟨hj, e, he, rfl⟩
    exact ⟨e, ⟨he, by simpa using hj⟩, rfl⟩

theorem mem_mapKeys_mapInsert (m : List (Nat × Nat)) (k v j : Nat) :
    j ∈ mapKeys (mapInsert m k v) ↔ j = k ∨ j ∈ mapKeys m := by
  have h := mem_mapKeys_mapDelete m k j
  simp only [mapKeys] at h
  simp only [mapInsert, mapKeys, List.map_append, List.mem_append, h]
  by_cases hj : j = k <;> simp [hj]

theorem mapGet?_mapDelete_self (m : List (Nat × Nat)) (k : Nat) :
    mapGet? (mapDelete m k) k = none := by
  induction m with
  | nil => rfl
  | cons e m ih =>
    by_cases h : e.1 = k
    · simpa [mapDelete, List.filter_cons, h] using ih
    · simp only [mapGet?, mapDelete] at ih ⊢
      simp [List.filter_cons, h, List.find?_cons, ih]

theorem mapGet?_mapDelete_of_ne (m : List (Nat × Nat)) (k j : Nat) (hj : j ≠ k) :
    mapGet? (mapDelete m k) j = mapGet? m j := by
  induction m with
  | nil => rfl
  | cons e m ih =>
    unfold mapGet? mapDelete at ih ⊢
    by_cases h : e.1 = k
    · have h2 : ¬ e.1 = j := fun h3 => hj (h3.symm.trans h)
      have h3 : (e.1 != k) = false := by simp [h]
      have h4 : (e.1 == j) = false := by simp [h2]
      rw [List.filter_cons, h3, List.find?_cons, h4]
      simpa using ih
    · have h3 : (e.1 != k) = true := by simp [h]
      rw [List.filter_cons, h3]
      by_cases h2 : e.1 = j
      · have h4 : (e.1 == j) = true := by simp [h2]
        simp only [if_true, List.find?_cons, h4]
      · have h4 : (e.1 == j) = false := by simp [h2]
        simp only [if_true, List.find?_cons, h4]
        exact ih

theorem mapDelete_of_not_mem (m : List (Nat × Nat)) (k : Nat) (hk : k ∉ mapKeys m) :
    mapDelete m k = m := by
  simp only [mapDelete, List.filter_eq_self]
  intro e he
  have : e.1 ≠ k := fun h => hk (by simpa [mapKeys] using ⟨e.2, by simpa [← h] using he⟩)
  simpa using this

theorem mapDelete_mapDelete (m : List (Nat × Nat)) (k : Nat) :
    mapDelete (mapDelete m k) k = mapDelete m k := by
  simp [mapDelete, List.filter_filter]

/-! ## Lemmas on the channel -/

theorem send_delivered (ch ch1 : Chan) (m : Bytes) (h : ch.send m = .delivered ch1) :
    ch.closed = false ∧ ch.receiver = true ∧ ch1 = ch.deliver m := by
  obtain ⟨c, r, s⟩ := ch
  cases c <;> cases r <;> simp [Chan.send] at h
  exact ⟨rfl, rfl, h.symm⟩

theorem send_of_ready (ch : Chan) (m : Bytes) (hc : ch.closed = false) (hr : ch.receiver = true) :
    ch.send m = .delivered (ch.deliver m) := by
  simp [Chan.send, hc, hr]

theorem deliver_closed (ch : Chan) (m : Bytes) : (ch.deliver m).closed = ch.closed := rfl

theorem deliver_sent (ch : Chan) (m : Bytes) : (ch.deliver m).sent = ch.sent ++ [m] := rfl

theorem send_of_closed (ch : Chan) (m : Bytes) (hc : ch.closed = true) :
    ch.send m = .panics := by
  simp [Chan.send, hc]

theorem send_of_unready (ch : Chan) (m : Bytes) (hc : ch.closed = false)
    (hr : ch.receiver = false) : ch.send m = .blocks := by
  simp [Chan.send, hc, hr]

/-! ## Lemmas on `mainHandler` -/

theorem setConn_heap (w : World) (p : Nat) (c : Connection) (q : Nat) :
    (w.setConn p c).heap q = if q = p then c else w.heap q := rfl

theorem setConn_server (w : World) (p : Nat) (c : Connection) :
    (w.setConn p c).server = w.server := rfl

theorem setConn_started (w : World) (p : Nat) (c : Connection) :
    (w.setConn p c).started = w.started := rfl

/-- The fan-out writes nothing but the `output` channels. -/
theorem fanOut_frame (srcConn : Nat) (message : Bytes) (t : List (Nat × Nat)) :
    ∀ w : World,
      (fanOut srcConn message w t).world.server = w.server ∧
      (fanOut srcConn message w t).world.started = w.started ∧
      ∀ p, ((fanOut srcConn message w t).world.heap p).id = (w.heap p).id ∧
        ((fanOut srcConn message w t).world.heap p).connection = (w.heap p).connection ∧
        ((fanOut srcConn message w t).world.heap p).isOpen = (w.heap p).isOpen ∧
        ((fanOut srcConn message w t).world.heap p).output.closed = (w.heap p).output.closed := by
  induction t with
  | nil => intro w; simp [fanOut, Outcome.world]
  | cons e t ih =>
    intro w
    obtain ⟨id, conn⟩ := e
    unfold fanOut
    by_cases hid : id ≠ (w.heap srcConn).id
    · rw [if_pos hid]
      cases hs : (w.heap conn).output.send message with
      | delivered ch =>
        simp only
        obtain ⟨h1, h2, h3⟩ := ih (w.setConn conn { w.heap conn with output := ch })
        refine ⟨h1, h2, fun p => ?_⟩
        obtain ⟨h4, h5, h6, h7⟩ := h3 p
        rw [h4, h5, h6, h7, setConn_heap]
        by_cases hp : p = conn
        · subst hp
          have hc : ch.closed = (w.heap p).output.closed := by
            obtain ⟨_, _, h9⟩ := send_delivered _ _ _ hs
            rw [h9, deliver_closed]
          simp [hc]
        · simp [hp]
      | blocks => simp [Outcome.world]
      | panics => simp [Outcome.world]
    · rw [if_neg hid]
      exact ih w

theorem mainHandlerStep_heap_id (w : World) (x : Received) (p : Nat) :
    ((mainHandlerStep w x).world.heap p).id = (w.heap p).id := by
  cases x with
  | event evt =>
    unfold mainHandlerStep
    simp only
    split_ifs <;> rfl
  | message msg => exact ((fanOut_frame msg.connection msg.message _ w).2.2 p).1
  | idle => rfl

theorem mainHandlerStep_message_connections (w : World) (msg : ConnectionMessage) :
    (mainHandlerStep w (.message msg)).world.server.connections = w.server.connections := by
  unfold mainHandlerStep
  rw [(fanOut_frame msg.connection msg.message _ w).1]

/-! ## The membership table -/

/-- C9. Processing `Disconnected(c)` always runs to its end; afterwards the
identity of `c` has no entry, the entries of every other key are the ones from
before, nothing but the table has changed, an absent identity leaves the state
exactly as it was, and processing the event a second time changes nothing
more. -/
theorem disconnected_idempotent (w : World) (c : Nat) :
    ∃ w1 : World,
      mainHandlerStep w (.event { eventType := kConnectionClosed, connection := c }) = .done w1 ∧
      (w.heap c).id ∉ mapKeys w1.server.connections ∧
      mapGet? w1.server.connections (w.heap c).id = none ∧
      (∀ k, k ≠ (w.heap c).id →
        mapGet? w1.server.connections k = mapGet? w.server.connections k) ∧
      w1.server.connections = w.server.connections.filter (fun e => e.1 != (w.heap c).id) ∧
      w1.server.events = w.server.events ∧ w1.server.messages = w.server.messages ∧
      w1.heap = w.heap ∧ w1.started = w.started ∧
      ((w.heap c).id ∉ mapKeys w.server.connections → w1 = w) ∧
      mainHandlerStep w1 (.event { eventType := kConnectionClosed, connection := c }) = .done w1 := by
  refine ⟨{ w with server := { w.server with
      connections := mapDelete w.server.connections (w.heap c).id } }, ?_, ?_, ?_, ?_, rfl, rfl,
      rfl, rfl, rfl, ?_, ?_⟩
  · simp [mainHandlerStep, kConnectionClosed, kNewConnection]
  · simp [mem_mapKeys_mapDelete]
  · exact mapGet?_mapDelete_self _ _
  · intro k hk
    exact mapGet?_mapDelete_of_ne _ _ _ hk
  · intro h
    simp only [mapDelete_of_not_mem _ _ h]
  · simp [mainHandlerStep, kConnectionClosed, kNewConnection, mapDelete_mapDelete]

/-! ## Lemmas on the loop of `mainHandler` -/

theorem rangeOver_eq_none (srcConn : Nat) (message : Bytes) (rest : List (Nat × Nat)) :
    rangeOver srcConn message rest = none ↔ rest = [] := by
  unfold rangeOver
  split_ifs with h <;> simp [h]

/-- A statement of `close` writes neither the table nor an identity nor what a
queue has got. -/
theorem closeStep_frame (conn : Nat) (w : World) (pc : ClosePc) :
    (closeStep conn w pc).1.world.server.connections = w.server.connections ∧
    ∀ p, (((closeStep conn w pc).1.world.heap p).id = (w.heap p).id ∧
      ((closeStep conn w pc).1.world.heap p).output.sent = (w.heap p).output.sent) := by
  cases pc with
  | test =>
    simp only [closeStep]
    split_ifs <;> exact ⟨rfl, fun _ => ⟨rfl, rfl⟩⟩
  | notify => exact ⟨rfl, fun _ => ⟨rfl, rfl⟩⟩
  | stream =>
    refine ⟨rfl, fun p => ?_⟩
    simp only [closeStep, Outcome.world, closeStream, setConn_heap]
    split_ifs with h
    · subst h; exact ⟨rfl, rfl⟩
    · exact ⟨rfl, rfl⟩
  | output =>
    simp only [closeStep, closeOutput]
    split_ifs with h
    · exact ⟨rfl, fun _ => ⟨rfl, rfl⟩⟩
    · refine ⟨rfl, fun p => ?_⟩
      simp only [Outcome.world, setConn_heap]
      split_ifs with h2
      · subst h2; exact ⟨rfl, rfl⟩
      · exact ⟨rfl, rfl⟩
  | clear =>
    refine ⟨rfl, fun p => ?_⟩
    simp only [closeStep, Outcome.world, clearOpen, setConn_heap]
    split_ifs with h
    · subst h; exact ⟨rfl, rfl⟩
    · exact ⟨rfl, rfl⟩
  | returned => exact ⟨rfl, fun _ => ⟨rfl, rfl⟩⟩

/-- The event cases of `mainHandler` always run to their end, write nothing
but the table and the list of started loops, and change the table as the
type of the event says. -/
theorem mainHandlerStep_event (w : World) (evt : ConnectionEvent) :
    ∃ w1, mainHandlerStep w (.event evt) = .done w1 ∧ w1.heap = w.heap ∧
      w1.server.connections =
        if evt.eventType = kNewConnection then
          mapInsert w.server.connections (w.heap evt.connection).id evt.connection
        else if evt.eventType = kConnectionClosed then
          mapDelete w.server.connections (w.heap evt.connection).id
        else w.server.connections := by
  unfold mainHandlerStep
  simp only
  split_ifs
  · exact ⟨_, rfl, rfl, rfl⟩
  · exact ⟨_, rfl, rfl, rfl⟩
  · exact ⟨_, rfl, rfl, rfl⟩

/-- What a step of the program does to the table and to the identities: only
the `select` of an event changes the table, and no step changes an identity. -/
theorem step_table (d d1 : Dispatcher) (s : Step) (h : d.step s = some d1) :
    (∀ p, (d1.world.heap p).id = (d.world.heap p).id) ∧
    d1.world.server.connections =
      match s with
      | .select (.event evt) =>
        if evt.eventType = kNewConnection then
          mapInsert d.world.server.connections (d.world.heap evt.connection).id evt.connection
        else if evt.eventType = kConnectionClosed then
          mapDelete d.world.server.connections (d.world.heap evt.connection).id
        else d.world.server.connections
      | _ => d.world.server.connections := by
  cases s with
  | select x =>
    simp only [Dispatcher.step] at h
    split_ifs at h
    cases hf : d.fanning with
    | some f => rw [hf] at h; cases h
    | none =>
      rw [hf] at h
      cases x with
      | message msg =>
        simp only [Option.some.injEq] at h
        subst h
        exact ⟨fun _ => rfl, rfl⟩
      | idle =>
        simp only [mainHandlerStep, Option.some.injEq] at h
        subst h
        exact ⟨fun _ => rfl, rfl⟩
      | event evt =>
        obtain ⟨w1, h1, h2, h3⟩ := mainHandlerStep_event d.world evt
        simp only [h1, Option.some.injEq] at h
        subst h
        exact ⟨fun p => by simp only [h2], h3⟩
  | iterate =>
    simp only [Dispatcher.step] at h
    split_ifs at h
    cases hf : d.fanning with
    | none => rw [hf] at h; cases h
    | some f =>
      obtain ⟨srcConn, message, t⟩ := f
      rw [hf] at h
      cases t with
      | nil =>
        simp only [Option.some.injEq] at h
        subst h
        exact ⟨fun _ => rfl, rfl⟩
      | cons e rest =>
        simp only at h
        have hfr := fanOut_frame srcConn message [e] d.world
        cases ho : fanOut srcConn message d.world [e] with
        | done w =>
          rw [ho] at h hfr
          simp only [Option.some.injEq] at h
          subst h
          exact ⟨fun p => (hfr.2.2 p).1, congrArg Server.connections hfr.1⟩
        | blocked c w =>
          rw [ho] at h
          simp only [Option.some.injEq] at h
          subst h
          exact ⟨fun _ => rfl, rfl⟩
        | panic w =>
          rw [ho] at h hfr
          simp only [Option.some.injEq] at h
          subst h
          exact ⟨fun p => (hfr.2.2 p).1, congrArg Server.connections hfr.1⟩
  | reader conn =>
    simp only [Dispatcher.step] at h
    split_ifs at h
    · simp only [Option.some.injEq] at h
      subst h
      exact ⟨fun _ => rfl, rfl⟩
    · simp only [Option.some.injEq] at h
      subst h
      refine ⟨fun p => ?_, rfl⟩
      simp only [setConn_heap]
      split_ifs with hp
      · subst hp; rfl
      · rfl
  | closing conn pc =>
    simp only [Dispatcher.step] at h
    split_ifs at h
    have hfr := closeStep_frame conn d.world pc
    cases ho : (closeStep conn d.world pc).1 with
    | done w =>
      rw [ho] at h hfr
      simp only [Option.some.injEq] at h
      subst h
      exact ⟨fun p => (hfr.2 p).1, hfr.1⟩
    | blocked c w => rw [ho] at h; cases h
    | panic w =>
      rw [ho] at h hfr
      simp only [Option.some.injEq] at h
      subst h
      exact ⟨fun p => (hfr.2 p).1, hfr.1⟩

theorem mainHandler_append (xs ys : List Step) :
    ∀ d : Dispatcher, mainHandler d (xs ++ ys) =
      match mainHandler d xs with
      | some d1 => mainHandler d1 ys
      | none => none := by
  induction xs with
  | nil => intro d; simp [mainHandler]
  | cons x xs ih =>
    intro d
    simp only [List.cons_append, mainHandler]
    cases h : d.step x with
    | some d1 => simpa using ih d1
    | none => rfl

theorem mainHandler_snoc (xs : List Step) (s : Step) (d d2 : Dispatcher)
    (h : mainHandler d (xs ++ [s]) = some d2) :
    ∃ d1, mainHandler d xs = some d1 ∧ d1.step s = some d2 := by
  rw [mainHandler_append] at h
  cases h1 : mainHandler d xs with
  | none => rw [h1] at h; cases h
  | some d1 =>
    rw [h1] at h
    simp only [mainHandler] at h
    refine ⟨d1, rfl, ?_⟩
    cases h2 : d1.step s with
    | none => rw [h2] at h; cases h
    | some d3 => rw [h2] at h; simpa using h

theorem mainHandler_heap_id (xs : List Step) :
    ∀ d d1 : Dispatcher, mainHandler d xs = some d1 →
      ∀ p, (d1.world.heap p).id = (d.world.heap p).id := by
  induction xs with
  | nil =>
    intro d d1 h p
    simp only [mainHandler, Option.some.injEq] at h
    rw [h]
  | cons x xs ih =>
    intro d d1 h p
    simp only [mainHandler] at h
    cases hs : d.step x with
    | none => rw [hs] at h; cases h
    | some d2 =>
      rw [hs] at h
      rw [ih d2 d1 h p, (step_table d d2 x hs).1 p]

theorem selected_append (xs ys : List Step) :
    selected (xs ++ ys) = selected xs ++ selected ys := by
  induction xs with
  | nil => rfl
  | cons x xs ih =>
    cases x <;> simp [selected, ih]

/-- C3, as amended. Take any run of the loop of `mainHandler` from an empty
table, among readers returning to their receive and calls of `close`, and a
connection `c` such that every event processed in the run that carries the
identity of `c` is an event of `c`, and no `Disconnected(c)` is processed
before a `Connected(c)`. Then the identity of `c` is a key of
`server.connections` after the run if and only if `Connected(c)` has been
processed and `Disconnected(c)` has not. -/
theorem membership_invariant (d0 : Dispatcher) (steps : List Step) (d : Dispatcher) (c : Nat)
    (hEmpty : d0.world.server.connections = [])
    (hRun : mainHandler d0 steps = some d)
    (hUniq : ∀ e : ConnectionEvent, Received.event e ∈ selected steps →
      (d0.world.heap e.connection).id = (d0.world.heap c).id → e.connection = c)
    (hOrder : ∀ pre post : List Received,
      selected steps =
        pre ++ Received.event { eventType := kNewConnection, connection := c } :: post →
      Received.event { eventType := kConnectionClosed, connection := c } ∉ pre) :
    (d0.world.heap c).id ∈ mapKeys d.world.server.connections ↔
      (Received.event { eventType := kNewConnection, connection := c } ∈ selected steps ∧
        Received.event { eventType := kConnectionClosed, connection := c } ∉ selected steps) := by
  induction steps using List.reverseRecOn generalizing d with
  | nil =>
    simp only [mainHandler, Option.some.injEq] at hRun
    subst hRun
    simp [hEmpty, mapKeys, selected]
  | append_singleton steps s ih =>
    obtain ⟨d1, h1, h2⟩ := mainHandler_snoc steps s d0 d hRun
    have hid : ∀ p, (d1.world.heap p).id = (d0.world.heap p).id :=
      mainHandler_heap_id steps d0 d1 h1
    obtain ⟨_, htab⟩ := step_table d1 d s h2
    rw [selected_append] at hUniq hOrder ⊢
    have ih1 := ih d1 h1
      (fun e he => hUniq e (List.mem_append_left _ he))
      (fun pre post hxs => hOrder pre (post ++ selected [s]) (by rw [hxs]; simp))
    rw [htab]
    cases s with
    | iterate => simpa [selected] using ih1
    | reader conn => simpa [selected] using ih1
    | closing conn pc => simpa [selected] using ih1
    | select x =>
      cases x with
      | idle => simpa [selected] using ih1
      | message msg => simpa [selected] using ih1
      | event evt =>
        obtain ⟨t, dd⟩ := evt
        have hd : (d0.world.heap dd).id = (d0.world.heap c).id → dd = c := fun h =>
          hUniq ⟨t, dd⟩ (by simp [selected]) h
        simp only [selected, List.mem_append, List.mem_singleton, Received.event.injEq,
          ConnectionEvent.mk.injEq]
        by_cases ht : t = kNewConnection
        · subst ht
          simp only [if_true, mem_mapKeys_mapInsert, hid]
          by_cases hdc : dd = c
          · subst hdc
            have hno := hOrder (selected steps) [] rfl
            simpa [kNewConnection, kConnectionClosed] using hno
          · have hne : ¬ (d0.world.heap c).id = (d0.world.heap dd).id := fun h => hdc (hd h.symm)
            have hcd : ¬ c = dd := fun h => hdc h.symm
            simp [hne, ih1, hcd, kNewConnection, kConnectionClosed]
        · by_cases ht2 : t = kConnectionClosed
          · subst ht2
            simp only [if_neg ht, if_true, mem_mapKeys_mapDelete, hid]
            by_cases hdc : dd = c
            · subst hdc
              simp
            · have hne : ¬ (d0.world.heap c).id = (d0.world.heap dd).id :=
                fun h => hdc (hd h.symm)
              have hcd : ¬ c = dd := fun h => hdc h.symm
              simp [hne, ih1, hcd, kNewConnection, kConnectionClosed]
          · simp only [if_neg ht, if_neg ht2]
            have e1 : ¬ (kNewConnection = t) := fun h => ht h.symm
            have e2 : ¬ (kConnectionClosed = t) := fun h => ht2 h.symm
            simp [ih1, e1, e2]

/-- C3, witness: the run `twoDeliveries` from `readyWorld`. The connection at
address 1 gets "hello" twice, once after the dispatcher was parked on it, and
its identity 2 is the one key of the table at the end. -/
theorem membership_invariant_witness :
    ∃ d, mainHandler (atSelect readyWorld) twoDeliveries = some d ∧
      d.world.server.connections = [(2, 1)] ∧
      (d.world.heap 1).output.sent = [hello, hello] ∧
      ((readyWorld.heap 1).id ∈ mapKeys d.world.server.connections ↔
        (connected 1 ∈ selected twoDeliveries ∧ disconnected 1 ∉ selected twoDeliveries)) := by
  have hs : (mainHandler (atSelect readyWorld) twoDeliveries).isSome = true := rfl
  obtain ⟨d, hd⟩ := Option.isSome_iff_exists.mp hs
  have h1 : (mainHandler (atSelect readyWorld) twoDeliveries).map
      (fun d => (d.world.server.connections, (d.world.heap 1).output.sent)) =
      some ([(2, 1)], [hello, hello]) := rfl
  rw [hd] at h1
  simp only [Option.map_some', Option.some.injEq, Prod.mk.injEq] at h1
  have hsel : selected twoDeliveries =
      [connected 0, connected 1, helloFrom 0, helloFrom 0, disconnected 0, helloFrom 1] := rfl
  refine ⟨d, hd, h1.1, h1.2,
    membership_invariant (atSelect readyWorld) twoDeliveries d 1 rfl hd ?_ ?_⟩
  · intro e he h
    rw [hsel] at he
    simp only [connected, disconnected, helloFrom, List.mem_cons, Received.event.injEq,
      List.mem_singleton, List.not_mem_nil, or_false, reduceCtorEq, false_or] at he
    rcases he with he | he | he
    · subst he; simp [readyWorld, atSelect] at h
    · subst he; rfl
    · subst he; simp [readyWorld, atSelect] at h
  · intro pre post h hmem
    have h2 : disconnected 1 ∈ selected twoDeliveries := by
      rw [h]
      exact List.mem_append_left _ hmem
    rw [hsel] at h2
    revert h2
    decide

/-- C3, counterexample. In `sharedIdWorld` the connections at addresses 0 and 1
share identity 1. After `Connected(0)`, `Connected(1)`, `Disconnected(0)` the
table is empty: identity 1 of connection 1 is not a key although
`Connected(1)` has been processed and `Disconnected(1)` has not. -/
theorem membership_fails_on_shared_identity :
    (mainHandler (atSelect sharedIdWorld) sharedIdRun).map
        (fun d => (d.crashed, d.world.server.connections)) = some (false, []) ∧
    selected sharedIdRun = [connected 0, connected 1, disconnected 0] ∧
    ¬ ((sharedIdWorld.heap 1).id ∈ mapKeys ([] : List (Nat × Nat)) ↔
        (connected 1 ∈ selected sharedIdRun ∧ disconnected 1 ∉ selected sharedIdRun)) := by
  refine ⟨rfl, rfl, ?_⟩
  decide

/-! ## The fan-out of a chat message -/

/-- A map that stores every connection under its own identity stores no
connection twice. -/
theorem mapValues_nodup (heap : Nat → Connection) (m : List (Nat × Nat))
    (hKeys : (mapKeys m).Nodup) (hId : ∀ e ∈ m, e.1 = (heap e.2).id) :
    (mapValues m).Nodup := by
  unfold mapValues
  unfold mapKeys at hKeys
  refine List.Nodup.map_on ?_ hKeys.of_map
  intro x hx y hy hxy
  apply List.inj_on_of_nodup_map hKeys hx hy
  rw [hId x hx, hId y hy, hxy]

/-- Whatever way the fan-out ends, every queue is as before or has got the
payload once, and only the queue of a visited entry with a key other than the
identity of the sender can have got it. -/
theorem fanOut_sent_cases (srcConn : Nat) (message : Bytes) (t : List (Nat × Nat)) :
    ∀ w : World, (mapValues t).Nodup → ∀ p,
      ((fanOut srcConn message w t).world.heap p).output.sent = (w.heap p).output.sent ∨
      ((∃ k, (k, p) ∈ t ∧ k ≠ (w.heap srcConn).id) ∧
        ((fanOut srcConn message w t).world.heap p).output.sent =
          (w.heap p).output.sent ++ [message]) := by
  induction t with
  | nil => intro w _ p; left; rfl
  | cons e t ih =>
    intro w hnd p
    obtain ⟨id, conn⟩ := e
    simp only [mapValues, List.map_cons, List.nodup_cons] at hnd
    obtain ⟨hconn, hnd⟩ := hnd
    unfold fanOut
    by_cases hid : id ≠ (w.heap srcConn).id
    · rw [if_pos hid]
      cases hs : (w.heap conn).output.send message with
      | delivered ch =>
        simp only
        obtain ⟨_, _, h9⟩ := send_delivered _ _ _ hs
        have hsrc : ((w.setConn conn { w.heap conn with output := ch }).heap srcConn).id
            = (w.heap srcConn).id := by
          rw [setConn_heap]; split_ifs with h
          · rw [h]
          · rfl
        rcases ih (w.setConn conn { w.heap conn with output := ch }) hnd p with h | ⟨⟨k, hk, hk2⟩, h⟩
        · rw [h, setConn_heap]
          by_cases hp : p = conn
          · subst hp
            right
            refine ⟨⟨id, List.mem_cons_self _ _, hid⟩, ?_⟩
            simp [h9, deliver_sent]
          · left
            simp [hp]
        · have hp : p ≠ conn := by
            rintro rfl
            exact hconn (List.mem_map.mpr ⟨(k, p), hk, rfl⟩)
          right
          rw [hsrc] at hk2
          refine ⟨⟨k, List.mem_cons_of_mem _ hk, hk2⟩, ?_⟩
          rw [h, setConn_heap, if_neg hp]
      | blocks => left; rfl
      | panics => left; rfl
    · rw [if_neg hid]
      rcases ih w hnd p with h | ⟨⟨k, hk, hk2⟩, h⟩
      · left; exact h
      · right; exact ⟨⟨k, List.mem_cons_of_mem _ hk, hk2⟩, h⟩

/-- When every send of the fan-out finds its channel open with the receiver
parked, the fan-out runs to its end and every visited entry with a key other
than the identity of the sender has got the payload. -/
theorem fanOut_done (srcConn : Nat) (message : Bytes) (t : List (Nat × Nat)) :
    ∀ w : World, (mapValues t).Nodup →
      (∀ e ∈ t, e.1 ≠ (w.heap srcConn).id →
        (w.heap e.2).output.closed = false ∧ (w.heap e.2).output.receiver = true) →
      ∃ w1, fanOut srcConn message w t = .done w1 ∧
        ∀ e ∈ t, e.1 ≠ (w.heap srcConn).id →
          (w1.heap e.2).output.sent = (w.heap e.2).output.sent ++ [message] := by
  induction t with
  | nil => intro w _ _; exact ⟨w, rfl, by simp⟩
  | cons e t ih =>
    intro w hnd hready
    obtain ⟨id, conn⟩ := e
    simp only [mapValues, List.map_cons, List.nodup_cons] at hnd
    obtain ⟨hconn, hnd⟩ := hnd
    have hrest : ∀ e ∈ t, e.2 ≠ conn := by
      intro e he h
      exact hconn (List.mem_map.mpr ⟨e, he, h⟩)
    unfold fanOut
    by_cases hid : id ≠ (w.heap srcConn).id
    · rw [if_pos hid]
      obtain ⟨hc, hr⟩ := hready (id, conn) (List.mem_cons_self _ _) hid
      rw [send_of_ready _ message hc hr]
      simp only
      have hsrc : ((w.setConn conn { w.heap conn with
            output := (w.heap conn).output.deliver message }).heap srcConn).id
            = (w.heap srcConn).id := by
        rw [setConn_heap]; split_ifs with h
        · rw [h]
        · rfl
      obtain ⟨w1, h1, h2⟩ := ih (w.setConn conn { w.heap conn with
            output := (w.heap conn).output.deliver message }) hnd
        (by
          intro e he hne
          rw [hsrc] at hne
          rw [setConn_heap, if_neg (hrest e he)]
          exact hready e (List.mem_cons_of_mem _ he) hne)
      refine ⟨w1, h1, ?_⟩
      intro e he hne
      rcases List.mem_cons.mp he with rfl | he
      · have h3 := fanOut_sent_cases srcConn message t (w.setConn conn { w.heap conn with
            output := (w.heap conn).output.deliver message }) hnd conn
        rw [h1] at h3
        simp only [Outcome.world] at h3
        rcases h3 with h3 | ⟨⟨k, hk, _⟩, _⟩
        · rw [h3, setConn_heap]; simp [deliver_sent]
        · exact absurd rfl (hrest (k, conn) hk)
      · rw [h2 e he (by rw [hsrc]; exact hne), setConn_heap, if_neg (hrest e he)]
    · rw [if_neg hid]
      obtain ⟨w1, h1, h2⟩ := ih w hnd
        (fun e he hne => hready e (List.mem_cons_of_mem _ he) hne)
      refine ⟨w1, h1, ?_⟩
      intro e he hne
      rcases List.mem_cons.mp he with rfl | he
      · exact absurd hne hid
      · exact h2 e he hne

/-- The tables `mainHandler` builds: every step keeps the keys distinct and
every connection stored under its own identity. -/
theorem mainHandlerStep_table (w : World) (x : Received)
    (hKeys : (mapKeys w.server.connections).Nodup)
    (hId : ∀ e ∈ w.server.connections, e.1 = (w.heap e.2).id) :
    (mapKeys (mainHandlerStep w x).world.server.connections).Nodup ∧
      ∀ e ∈ (mainHandlerStep w x).world.server.connections,
        e.1 = ((mainHandlerStep w x).world.heap e.2).id := by
  have hdel : ∀ k, (mapKeys (mapDelete w.server.connections k)).Nodup := by
    intro k
    unfold mapKeys mapDelete
    unfold mapKeys at hKeys
    have h1 := hKeys.of_map
    refine List.Nodup.map_on ?_ (h1.filter _)
    intro a ha b hb hab
    exact List.inj_on_of_nodup_map hKeys (List.mem_of_mem_filter ha) (List.mem_of_mem_filter hb) hab
  cases x with
  | idle => exact ⟨hKeys, hId⟩
  | message msg =>
    rw [mainHandlerStep_message_connections]
    refine ⟨hKeys, fun e he => ?_⟩
    rw [mainHandlerStep_heap_id]
    exact hId e he
  | event evt =>
    unfold mainHandlerStep
    simp only
    split_ifs with h1 h2
    · simp only [Outcome.world]
      constructor
      · have h3 : (w.heap evt.connection).id ∉
            mapKeys (mapDelete w.server.connections (w.heap evt.connection).id) := by
          simp [mem_mapKeys_mapDelete]
        have h4 := hdel (w.heap evt.connection).id
        unfold mapKeys at h3 h4 ⊢
        unfold mapInsert
        rw [List.map_append, List.nodup_append]
        refine ⟨h4, by simp, ?_⟩
        intro a ha hb
        simp only [List.map_cons, List.map_nil, List.mem_singleton] at hb
        subst hb
        exact h3 ha
      · intro e he
        unfold mapInsert at he
        rcases List.mem_append.mp he with he | he
        · exact hId e (List.mem_of_mem_filter he)
        · simp only [List.mem_singleton] at he
          subst he
          rfl
    · simp only [Outcome.world]
      exact ⟨hdel _, fun e he => hId e (List.mem_of_mem_filter he)⟩
    · exact ⟨hKeys, hId⟩

/-- The handling of a message run with no other goroutine acting in between:
whatever way it ends, it appends nothing to the queue of the sender or of a
connection outside the table, and to any queue either nothing or the payload
once; when every member of another identity has its queue open and its reader
parked, it runs to its end with the payload appended exactly once to each of
them and to no other queue. -/
theorem fanOut_at_once (w : World) (msg : ConnectionMessage)
    (hKeys : (mapKeys w.server.connections).Nodup)
    (hId : ∀ e ∈ w.server.connections, e.1 = (w.heap e.2).id) :
    ((mainHandlerStep w (.message msg)).world.heap msg.connection).output.sent =
        (w.heap msg.connection).output.sent ∧
    (∀ p, p ∉ mapValues w.server.connections →
      ((mainHandlerStep w (.message msg)).world.heap p).output.sent = (w.heap p).output.sent) ∧
    (∀ p, ((mainHandlerStep w (.message msg)).world.heap p).output.sent = (w.heap p).output.sent ∨
      ((mainHandlerStep w (.message msg)).world.heap p).output.sent =
        (w.heap p).output.sent ++ [msg.message]) ∧
    ((∀ p ∈ mapValues w.server.connections, (w.heap p).id ≠ (w.heap msg.connection).id →
        (w.heap p).output.closed = false ∧ (w.heap p).output.receiver = true) →
      ∃ w1, mainHandlerStep w (.message msg) = .done w1 ∧
        w1.server = w.server ∧
        ∀ p, (w1.heap p).output.sent =
          if p ∈ mapValues w.server.connections ∧ (w.heap p).id ≠ (w.heap msg.connection).id
          then (w.heap p).output.sent ++ [msg.message] else (w.heap p).output.sent) := by
  have hnd := mapValues_nodup w.heap _ hKeys hId
  have hcases := fanOut_sent_cases msg.connection msg.message w.server.connections w hnd
  have hmem : ∀ p k, (k, p) ∈ w.server.connections → p ∈ mapValues w.server.connections :=
    fun p k h => List.mem_map.mpr ⟨(k, p), h, rfl⟩
  have hnot : ∀ p, (p ∉ mapValues w.server.connections ∨
      (w.heap p).id = (w.heap msg.connection).id) →
      ((fanOut msg.connection msg.message w w.server.connections).world.heap p).output.sent
        = (w.heap p).output.sent := by
    intro p hp
    rcases hcases p with h | ⟨⟨k, hk, hk2⟩, _⟩
    · exact h
    · rcases hp with hp | hp
      · exact absurd (hmem p k hk) hp
      · exact absurd ((hId (k, p) hk).trans hp) hk2
  refine ⟨hnot _ (Or.inr rfl), fun p hp => hnot p (Or.inl hp), ?_, ?_⟩
  · intro p
    rcases hcases p with h | ⟨_, h⟩
    · exact Or.inl h
    · exact Or.inr h
  · intro hready
    obtain ⟨w1, h1, h2⟩ := fanOut_done msg.connection msg.message w.server.connections w hnd
      (by
        intro e he hne
        exact hready e.2 (List.mem_map.mpr ⟨e, he, rfl⟩) (by rw [← hId e he]; exact hne))
    refine ⟨w1, h1, ?_, ?_⟩
    · have := (fanOut_frame msg.connection msg.message w.server.connections w).1
      rw [h1] at this
      exact this
    · intro p
      have h3 : mainHandlerStep w (.message msg) =
          fanOut msg.connection msg.message w w.server.connections := rfl
      split_ifs with hp
      · obtain ⟨hp1, hp2⟩ := hp
        obtain ⟨e, he, rfl⟩ := List.mem_map.mp hp1
        exact h2 e he (by rw [hId e he]; exact hp2)
      · have h4 := hnot p (by
          by_cases hp1 : p ∈ mapValues w.server.connections
          · right
            by_contra hp2
            exact hp ⟨hp1, hp2⟩
          · exact Or.inl hp1)
        rw [h1] at h4
        exact h4

/-- One iteration of the `range` loop on its own. -/
theorem fanOut_single (srcConn : Nat) (message : Bytes) (w : World) (k q : Nat) :
    fanOut srcConn message w [(k, q)] =
      if k ≠ (w.heap srcConn).id then
        match (w.heap q).output.send message with
        | .delivered ch => .done (w.setConn q { w.heap q with output := ch })
        | .blocks => .blocked q w
        | .panics => .panic w
      else .done w := by
  unfold fanOut
  split_ifs with h
  · cases (w.heap q).output.send message <;> rfl
  · rfl

/-- The `range` loop is its first iteration followed by the loop over the
other entries. -/
theorem fanOut_cons (srcConn : Nat) (message : Bytes) (w : World) (e : Nat × Nat)
    (rest : List (Nat × Nat)) :
    fanOut srcConn message w (e :: rest) =
      match fanOut srcConn message w [e] with
      | .done w1 => fanOut srcConn message w1 rest
      | o => o := by
  obtain ⟨k, q⟩ := e
  rw [fanOut_single]
  conv_lhs => unfold fanOut
  split_ifs with h
  · cases (w.heap q).output.send message <;> rfl
  · rfl

/-- While a message is being handled, the entries the loop has passed are a
first part of the table, and a queue has got the payload, once, exactly when
its connection is among them with an identity other than the sender's. Every
step other than a `select` keeps this. -/
theorem handling_step (w0 : World) (srcConn : Nat) (message : Bytes) (d d1 : Dispatcher)
    (s : Step)
    (hnd : (mapValues w0.server.connections).Nodup)
    (hId : ∀ e ∈ w0.server.connections, e.1 = (w0.heap e.2).id)
    (hs : ∀ x, s ≠ .select x) (hstep : d.step s = some d1)
    (hinv : ∃ visited rest, w0.server.connections = visited ++ rest ∧
      d.fanning = rangeOver srcConn message rest ∧
      d.world.server.connections = w0.server.connections ∧
      (∀ p, (d.world.heap p).id = (w0.heap p).id) ∧
      ∀ p, (d.world.heap p).output.sent =
        if p ∈ mapValues visited ∧ (w0.heap p).id ≠ (w0.heap srcConn).id
        then (w0.heap p).output.sent ++ [message] else (w0.heap p).output.sent) :
    ∃ visited rest, w0.server.connections = visited ++ rest ∧
      d1.fanning = rangeOver srcConn message rest ∧
      d1.world.server.connections = w0.server.connections ∧
      (∀ p, (d1.world.heap p).id = (w0.heap p).id) ∧
      ∀ p, (d1.world.heap p).output.sent =
        if p ∈ mapValues visited ∧ (w0.heap p).id ≠ (w0.heap srcConn).id
        then (w0.heap p).output.sent ++ [message] else (w0.heap p).output.sent := by
  obtain ⟨visited, rest, htab, hfan, hconn, hids, hsent⟩ := hinv
  obtain ⟨hid1, hconn1⟩ := step_table d d1 s hstep
  cases s with
  | select x => exact absurd rfl (hs x)
  | reader conn =>
    simp only at hconn1
    refine ⟨visited, rest, htab, ?_, hconn1.trans hconn, fun p => (hid1 p).trans (hids p), ?_⟩
    · simp only [Dispatcher.step] at hstep
      split_ifs at hstep <;> (simp only [Option.some.injEq] at hstep; subst hstep; exact hfan)
    · intro p
      rw [← hsent p]
      simp only [Dispatcher.step] at hstep
      split_ifs at hstep
      · simp only [Option.some.injEq] at hstep; subst hstep; rfl
      · simp only [Option.some.injEq] at hstep
        subst hstep
        simp only [setConn_heap]
        split_ifs with hp
        · subst hp; rfl
        · rfl
  | closing conn pc =>
    simp only at hconn1
    have hfr := closeStep_frame conn d.world pc
    refine ⟨visited, rest, htab, ?_, hconn1.trans hconn, fun p => (hid1 p).trans (hids p), ?_⟩
    · simp only [Dispatcher.step] at hstep
      split_ifs at hstep
      cases ho : (closeStep conn d.world pc).1 with
      | done w => rw [ho] at hstep; simp only [Option.some.injEq] at hstep; subst hstep; exact hfan
      | blocked c w => rw [ho] at hstep; cases hstep
      | panic w => rw [ho] at hstep; simp only [Option.some.injEq] at hstep; subst hstep; exact hfan
    · intro p
      rw [← hsent p]
      simp only [Dispatcher.step] at hstep
      split_ifs at hstep
      cases ho : (closeStep conn d.world pc).1 with
      | done w =>
        rw [ho] at hstep hfr
        simp only [Option.some.injEq] at hstep
        subst hstep
        exact (hfr.2 p).2
      | blocked c w => rw [ho] at hstep; cases hstep
      | panic w =>
        rw [ho] at hstep hfr
        simp only [Option.some.injEq] at hstep
        subst hstep
        exact (hfr.2 p).2
  | iterate =>
    simp only at hconn1
    simp only [Dispatcher.step] at hstep
    split_ifs at hstep
    rw [hfan] at hstep
    cases rest with
    | nil => simp [rangeOver] at hstep
    | cons e rest1 =>
      obtain ⟨k, q⟩ := e
      simp only [rangeOver, reduceCtorEq, if_false] at hstep
      have hmem : (k, q) ∈ w0.server.connections := by rw [htab]; simp
      have hk : k = (w0.heap q).id := hId (k, q) hmem
      have hq : q ∉ mapValues visited := by
        rw [htab] at hnd
        simp only [mapValues, List.map_append, List.map_cons] at hnd
        intro hq
        exact (List.nodup_append.mp hnd).2.2 hq (List.mem_cons_self _ _)
      have hvis : ∀ p, p ∈ mapValues (visited ++ [(k, q)]) ↔ p ∈ mapValues visited ∨ p = q := by
        intro p
        simp [mapValues]
      rw [fanOut_single, hids srcConn] at hstep
      by_cases hne : k ≠ (w0.heap srcConn).id
      · rw [if_pos hne] at hstep
        cases hsend : (d.world.heap q).output.send message with
        | delivered ch =>
          rw [hsend] at hstep
          simp only [Option.some.injEq] at hstep
          subst hstep
          obtain ⟨_, _, hch⟩ := send_delivered _ _ _ hsend
          refine ⟨visited ++ [(k, q)], rest1, by rw [htab]; simp, rfl, hconn,
            fun p => (hid1 p).trans (hids p), ?_⟩
          intro p
          simp only [setConn_heap, hvis]
          by_cases hp : p = q
          · subst hp
            have h1 : (w0.heap p).id ≠ (w0.heap srcConn).id := by rw [← hk]; exact hne
            simp only [if_true, hch, deliver_sent, hsent p, hq, false_and, if_false, or_true,
              true_and, h1, ne_eq, not_false_eq_true]
          · simp only [hp, if_false, or_false]
            exact hsent p
        | blocks =>
          rw [hsend] at hstep
          simp only [Option.some.injEq] at hstep
          subst hstep
          exact ⟨visited, (k, q) :: rest1, htab, hfan, hconn, hids, hsent⟩
        | panics =>
          rw [hsend] at hstep
          simp only [Option.some.injEq] at hstep
          subst hstep
          exact ⟨visited, (k, q) :: rest1, htab, by simp [rangeOver], hconn, hids, hsent⟩
      · rw [if_neg hne] at hstep
        simp only [Option.some.injEq] at hstep
        subst hstep
        refine ⟨visited ++ [(k, q)], rest1, by rw [htab]; simp, rfl, hconn, hids, ?_⟩
        intro p
        rw [hsent p]
        have hkeq : (w0.heap q).id = (w0.heap srcConn).id := by
          rw [← hk]; exact not_not.mp hne
        by_cases hp : p = q
        · subst hp
          simp [hq, hkeq]
        · simp only [hvis, hp, or_false]

/-- The same over all the steps that follow the `select` of the message, up to
the next `select`. -/
theorem handling_run (w0 : World) (srcConn : Nat) (message : Bytes) (steps : List Step)
    (hnd : (mapValues w0.server.connections).Nodup)
    (hId : ∀ e ∈ w0.server.connections, e.1 = (w0.heap e.2).id)
    (hs : ∀ x, Step.select x ∉ steps) :
    ∀ d d1 : Dispatcher, mainHandler d steps = some d1 →
      (∃ visited rest, w0.server.connections = visited ++ rest ∧
        d.fanning = rangeOver srcConn message rest ∧
        d.world.server.connections = w0.server.connections ∧
        (∀ p, (d.world.heap p).id = (w0.heap p).id) ∧
        ∀ p, (d.world.heap p).output.sent =
          if p ∈ mapValues visited ∧ (w0.heap p).id ≠ (w0.heap srcConn).id
          then (w0.heap p).output.sent ++ [message] else (w0.heap p).output.sent) →
      ∃ visited rest, w0.server.connections = visited ++ rest ∧
        d1.fanning = rangeOver srcConn message rest ∧
        d1.world.server.connections = w0.server.connections ∧
        (∀ p, (d1.world.heap p).id = (w0.heap p).id) ∧
        ∀ p, (d1.world.heap p).output.sent =
          if p ∈ mapValues visited ∧ (w0.heap p).id ≠ (w0.heap srcConn).id
          then (w0.heap p).output.sent ++ [message] else (w0.heap p).output.sent := by
  induction steps with
  | nil =>
    intro d d1 h hinv
    simp only [mainHandler, Option.some.injEq] at h
    subst h
    exact hinv
  | cons s steps ih =>
    intro d d1 h hinv
    simp only [mainHandler] at h
    cases hstep : d.step s with
    | none => rw [hstep] at h; cases h
    | some d2 =>
      rw [hstep] at h
      exact ih (fun x hx => hs x (List.mem_cons_of_mem _ hx)) d2 d1 h
        (handling_step w0 srcConn message d d2 s hnd hId
          (fun x hx => hs x (by rw [hx]; exact List.mem_cons_self _ _)) hstep hinv)

/-- The iterations of the `range` loop made one after the other, with no other
goroutine acting in between, are the handling run at once. -/
theorem mainHandler_iterates (srcConn : Nat) (message : Bytes) (t : List (Nat × Nat)) :
    ∀ w w1 : World, fanOut srcConn message w t = .done w1 →
      mainHandler { world := w, fanning := rangeOver srcConn message t, crashed := false }
        (List.replicate t.length .iterate) = some (atSelect w1) := by
  induction t with
  | nil =>
    intro w w1 h
    simp only [fanOut, Outcome.done.injEq] at h
    subst h
    rfl
  | cons e rest ih =>
    intro w w1 h
    rw [fanOut_cons] at h
    cases h2 : fanOut srcConn message w [e] with
    | done w2 =>
      rw [h2] at h
      simp only at h
      have := ih w2 w1 h
      simp only [List.length_cons, List.replicate_succ, mainHandler, Dispatcher.step,
        rangeOver, reduceCtorEq, if_false, Bool.false_eq_true, h2]
      exact this
    | blocked c w2 => rw [h2] at h; cases h
    | panic w2 => rw [h2] at h; cases h

/-- C2, as amended. Let the table be a map (distinct keys) that stores every
connection under its own identity, as every table built by `mainHandler`
does, and let a chat message be taken by the `select`. At every moment of its
handling, among readers returning to their receive and calls of `close`: the
table is as it was; the entries the `range` loop has passed are a first part
of the table; a queue has got the payload, once, exactly when its connection
is among the passed entries with an identity other than the sender's; so the
queue of the sender and the queues of the connections outside the table have
got nothing; and once the handling has run to its end, the payload has been
appended exactly once to the queue of each member whose identity differs from
the sender's and to no other queue. When every such member has its queue open
and its reader parked in the receive, the handling runs to its end at once. -/
theorem broadcast_fan_out (w : World) (msg : ConnectionMessage)
    (hKeys : (mapKeys w.server.connections).Nodup)
    (hId : ∀ e ∈ w.server.connections, e.1 = (w.heap e.2).id) :
    (∀ (steps : List Step) (d1 : Dispatcher), (∀ x, Step.select x ∉ steps) →
      mainHandler (atSelect w) (.select (.message msg) :: steps) = some d1 →
      d1.world.server.connections = w.server.connections ∧
      (∃ visited rest, w.server.connections = visited ++ rest ∧
        d1.fanning = rangeOver msg.connection msg.message rest ∧
        ∀ p, (d1.world.heap p).output.sent =
          if p ∈ mapValues visited ∧ (w.heap p).id ≠ (w.heap msg.connection).id
          then (w.heap p).output.sent ++ [msg.message] else (w.heap p).output.sent) ∧
      (d1.world.heap msg.connection).output.sent = (w.heap msg.connection).output.sent ∧
      (∀ p, p ∉ mapValues w.server.connections →
        (d1.world.heap p).output.sent = (w.heap p).output.sent) ∧
      (d1.fanning = none →
        ∀ p, (d1.world.heap p).output.sent =
          if p ∈ mapValues w.server.connections ∧ (w.heap p).id ≠ (w.heap msg.connection).id
          then (w.heap p).output.sent ++ [msg.message] else (w.heap p).output.sent)) ∧
    ((∀ p ∈ mapValues w.server.connections, (w.heap p).id ≠ (w.heap msg.connection).id →
        (w.heap p).output.closed = false ∧ (w.heap p).output.receiver = true) →
      ∃ w1, mainHandlerStep w (.message msg) = .done w1 ∧
        mainHandler (atSelect w)
          (.select (.message msg) :: List.replicate w.server.connections.length .iterate) =
            some (atSelect w1) ∧
        w1.server = w.server ∧
        ∀ p, (w1.heap p).output.sent =
          if p ∈ mapValues w.server.connections ∧ (w.heap p).id ≠ (w.heap msg.connection).id
          then (w.heap p).output.sent ++ [msg.message] else (w.heap p).output.sent) := by
  have hnd := mapValues_nodup w.heap _ hKeys hId
  constructor
  · intro steps d1 hsel hrun
    have hstart : (atSelect w).step (.select (.message msg)) =
        some { world := w, fanning := rangeOver msg.connection msg.message w.server.connections,
               crashed := false } := rfl
    simp only [mainHandler, hstart] at hrun
    obtain ⟨visited, rest, htab, hfan, hconn, _, hsent⟩ :=
      handling_run w msg.connection msg.message steps hnd hId hsel _ d1 hrun
        ⟨[], w.server.connections, rfl, rfl, rfl, fun _ => rfl, fun p => by simp [mapValues]⟩
    have hsub : ∀ p, p ∈ mapValues visited → p ∈ mapValues w.server.connections := by
      intro p hp
      rw [htab]
      simp only [mapValues, List.map_append, List.mem_append] at hp ⊢
      exact Or.inl hp
    refine ⟨hconn, ⟨visited, rest, htab, hfan, hsent⟩, ?_, ?_, ?_⟩
    · rw [hsent]
      simp
    · intro p hp
      rw [hsent, if_neg (fun h => hp (hsub p h.1))]
    · intro hnone
      rw [hfan, rangeOver_eq_none] at hnone
      subst hnone
      rw [List.append_nil] at htab
      rw [htab]
      exact hsent
  · intro hready
    obtain ⟨w1, h1, h2, h3⟩ := (fanOut_at_once w msg hKeys hId).2.2.2 hready
    refine ⟨w1, h1, ?_, h2, h3⟩
    have hit := mainHandler_iterates msg.connection msg.message w.server.connections w w1 h1
    have hstart : (atSelect w).step (.select (.message msg)) =
        some { world := w, fanning := rangeOver msg.connection msg.message w.server.connections,
               crashed := false } := rfl
    simp only [mainHandler, hstart]
    exact hit

/-- C2, witness: in `busyReader` the identities 1, 2, 3 are registered and the
reader of identity 3 is busy. The handling of "hello" from identity 2 is
parked on identity 3 until its reader has come; at its end the queues of
identities 1 and 3 have got "hello" once and no other queue has. -/
theorem broadcast_fan_out_witness :
    ∃ d1, mainHandler (atSelect busyReader) resumedHandling = some d1 ∧
      d1.fanning = none ∧
      (d1.world.heap 0).output.sent = [hello] ∧ (d1.world.heap 1).output.sent = [] ∧
      (d1.world.heap 2).output.sent = [hello] ∧ (d1.world.heap 3).output.sent = [] := by
  have hs : (mainHandler (atSelect busyReader) resumedHandling).isSome = true := rfl
  obtain ⟨d1, hd⟩ := Option.isSome_iff_exists.mp hs
  have hf : (mainHandler (atSelect busyReader) resumedHandling).map (fun d => d.fanning) =
      some none := rfl
  rw [hd] at hf
  simp only [Option.map_some', Option.some.injEq] at hf
  obtain ⟨_, _, _, _, h5⟩ :=
    (broadcast_fan_out busyReader { message := hello, connection := 1 } (by decide)
      (by
        intro e he
        simp only [busyReader, threeClients, World.setConn, List.mem_cons, List.mem_singleton,
          List.not_mem_nil, or_false] at he
        rcases he with rfl | rfl | rfl <;> rfl)).1
      [.iterate, .iterate, .iterate, .reader 2, .iterate] d1
      (by intro x hx; simp at hx) hd
  have h6 := h5 hf
  refine ⟨d1, hd, hf, ?_, ?_, ?_, ?_⟩
  · rw [h6 0]; rfl
  · rw [h6 1]; rfl
  · rw [h6 2]; rfl
  · rw [h6 3]; rfl

/-- C2, counterexample. In `busyReader` the identities 1, 2, 3 are registered
and the reader of identity 3 is busy in a `Write`. The handling of "hello"
from identity 2 delivers to identity 1 and is then parked in the send to
identity 3: it has not run to its end, however often the loop is tried, and
the queue of the member of identity 3 has got nothing. -/
theorem fan_out_parked_before_last_member :
    2 ∈ mapValues busyReader.server.connections ∧
    (busyReader.heap 2).id ≠ (busyReader.heap 1).id ∧
    (mainHandlerStep busyReader (.message { message := hello, connection := 1 })).isDone
      = false ∧
    (mainHandlerStep busyReader (.message { message := hello, connection := 1 })).blockedOn
      = some 2 ∧
    ((mainHandlerStep busyReader
      (.message { message := hello, connection := 1 })).world.heap 2).output.sent = [] ∧
    (mainHandler (atSelect busyReader)
      [.select (helloFrom 1), .iterate, .iterate, .iterate, .iterate, .iterate]).map
        (fun d => (d.crashed, d.fanning, (d.world.heap 0).output.sent,
          (d.world.heap 2).output.sent)) =
      some (false, some (1, hello, [(3, 2)]), [hello], []) := by
  refine ⟨by decide, by decide, rfl, rfl, rfl, rfl⟩

/-- C4, as amended. When the handling of a chat message reaches a member of
another identity whose queue is open but has no reader parked in the receive,
after sends that all completed, the dispatcher is parked in that send: the
connection is exactly as it was (still open, its stream and queue not
closed), no event has been emitted and the table is as it was, and no
connection later in the iteration has got the payload. -/
theorem fan_out_stalls_on_unready_target (w : World) (msg : ConnectionMessage)
    (pre post : List (Nat × Nat)) (k p : Nat)
    (hTable : w.server.connections = pre ++ (k, p) :: post)
    (hKeys : (mapKeys w.server.connections).Nodup)
    (hId : ∀ e ∈ w.server.connections, e.1 = (w.heap e.2).id)
    (hPre : ∀ e ∈ pre, (w.heap e.2).id ≠ (w.heap msg.connection).id →
      (w.heap e.2).output.closed = false ∧ (w.heap e.2).output.receiver = true)
    (hTarget : (w.heap p).id ≠ (w.heap msg.connection).id)
    (hOpen : (w.heap p).output.closed = false)
    (hNoReader : (w.heap p).output.receiver = false) :
    ∃ w1, mainHandlerStep w (.message msg) = .blocked p w1 ∧
      w1.heap p = w.heap p ∧
      w1.server = w.server ∧
      ∀ e ∈ post, (w1.heap e.2).output.sent = (w.heap e.2).output.sent := by
  have hnd := mapValues_nodup w.heap _ hKeys hId
  rw [hTable] at hnd hId
  simp only [mapValues, List.map_append, List.map_cons] at hnd
  have hkp : k = (w.heap p).id := hId (k, p) (by simp)
  have key : ∀ (pre : List (Nat × Nat)) (w0 : World),
      (List.map Prod.snd pre ++ p :: List.map Prod.snd post).Nodup →
      (∀ e ∈ pre, e.1 ≠ (w0.heap msg.connection).id →
        (w0.heap e.2).output.closed = false ∧ (w0.heap e.2).output.receiver = true) →
      k ≠ (w0.heap msg.connection).id →
      (w0.heap p).output.closed = false → (w0.heap p).output.receiver = false →
      ∃ w1, fanOut msg.connection msg.message w0 (pre ++ (k, p) :: post) = .blocked p w1 ∧
        w1.heap p = w0.heap p ∧
        ∀ e ∈ post, (w1.heap e.2).output.sent = (w0.heap e.2).output.sent := by
    intro pre
    induction pre with
    | nil =>
      intro w0 _ _ hk hc hr
      refine ⟨w0, ?_, rfl, fun _ _ => rfl⟩
      simp only [List.nil_append, fanOut, if_pos hk, send_of_unready _ _ hc hr]
    | cons e pre ih =>
      intro w0 hnd0 hready hk hc hr
      obtain ⟨id, conn⟩ := e
      simp only [List.map_cons, List.cons_append, List.nodup_cons, List.mem_append,
        List.mem_cons] at hnd0
      obtain ⟨hconn, hnd0⟩ := hnd0
      have hcp : p ≠ conn := fun h => hconn (Or.inr (Or.inl h.symm))
      simp only [List.cons_append]
      unfold fanOut
      by_cases hid : id ≠ (w0.heap msg.connection).id
      · rw [if_pos hid]
        obtain ⟨hc1, hr1⟩ := hready (id, conn) (List.mem_cons_self _ _) hid
        rw [send_of_ready _ _ hc1 hr1]
        simp only
        have hsrc : ((w0.setConn conn { w0.heap conn with
              output := (w0.heap conn).output.deliver msg.message }).heap msg.connection).id
              = (w0.heap msg.connection).id := by
          rw [setConn_heap]; split_ifs with h
          · rw [h]
          · rfl
        obtain ⟨w1, h1, h2, h3⟩ := ih (w0.setConn conn { w0.heap conn with
              output := (w0.heap conn).output.deliver msg.message }) hnd0
          (by
            intro e he hne
            rw [hsrc] at hne
            have hec : e.2 ≠ conn := fun h =>
              hconn (Or.inl (List.mem_map.mpr ⟨e, he, h⟩))
            rw [setConn_heap, if_neg hec]
            exact hready e (List.mem_cons_of_mem _ he) hne)
          (by rw [hsrc]; exact hk)
          (by rw [setConn_heap, if_neg hcp]; exact hc)
          (by rw [setConn_heap, if_neg hcp]; exact hr)
        refine ⟨w1, h1, ?_, ?_⟩
        · rw [h2, setConn_heap, if_neg hcp]
        · intro e he
          have hec : e.2 ≠ conn := fun h =>
            hconn (Or.inr (Or.inr (List.mem_map.mpr ⟨e, he, h⟩)))
          rw [h3 e he, setConn_heap, if_neg hec]
      · rw [if_neg hid]
        exact ih w0 hnd0 (fun e he hne => hready e (List.mem_cons_of_mem _ he) hne) hk hc hr
  obtain ⟨w1, h1, h2, h3⟩ := key pre w hnd
    (by
      intro e he hne
      exact hPre e he (by rw [← hId e (by simp [he])]; exact hne))
    (by rw [hkp]; exact hTarget) hOpen hNoReader
  have h4 : fanOut msg.connection msg.message w w.server.connections = .blocked p w1 := by
    rw [hTable]
    exact h1
  refine ⟨w1, h4, h2, ?_, h3⟩
  have := (fanOut_frame msg.connection msg.message w.server.connections w).1
  rw [h4] at this
  exact this

/-- C4, witness: in `slowClient` a message from the connection at address 2
is delivered to the connection at address 0 and then parks the dispatcher on
the connection at address 1, which is left as it was. -/
theorem fan_out_stalls_on_unready_target_witness :
    ∃ w1, mainHandlerStep slowClient (.message { message := hello, connection := 2 }) =
        .blocked 1 w1 ∧
      w1.heap 1 = slowClient.heap 1 ∧
      w1.server = slowClient.server ∧
      ∀ e ∈ [((3 : Nat), (2 : Nat))], (w1.heap e.2).output.sent = (slowClient.heap e.2).output.sent :=
  fan_out_stalls_on_unready_target slowClient { message := hello, connection := 2 }
    [(1, 0)] [(3, 2)] 2 1 rfl (by decide)
    (by
      intro e he
      simp only [slowClient, threeClients, World.setConn, List.mem_cons, List.mem_singleton,
        List.not_mem_nil, or_false] at he
      rcases he with rfl | rfl | rfl <;> rfl)
    (by
      intro e he _
      simp only [List.mem_singleton] at he
      subst he
      exact ⟨rfl, rfl⟩)
    (by decide) rfl rfl

/-- C4, counterexample. In `slowClient` the identities 1, 2, 3 are registered
and the reader of identity 2 is not parked in its receive. Handling "hello"
from identity 1 leaves the dispatcher parked in the send to identity 2: that
connection is not torn down (open flag set, stream and queue not closed, no
`Disconnected` event, still in the table), and the healthy connection of
identity 3 has got nothing. -/
theorem no_disconnect_on_overflow :
    (mainHandlerStep slowClient (.message { message := hello, connection := 0 })).blockedOn
      = some 1 ∧
    (mainHandlerStep slowClient (.message { message := hello, connection := 0 })).isDone
      = false ∧
    ((mainHandlerStep slowClient
      (.message { message := hello, connection := 0 })).world.heap 1).isOpen = true ∧
    ((mainHandlerStep slowClient
      (.message { message := hello, connection := 0 })).world.heap 1).output.closed = false ∧
    ((mainHandlerStep slowClient
      (.message { message := hello, connection := 0 })).world.heap 1).connection.closeCalls = 0 ∧
    (mainHandlerStep slowClient
      (.message { message := hello, connection := 0 })).world.server.events = [] ∧
    (mainHandlerStep slowClient
      (.message { message := hello, connection := 0 })).world.server.connections
        = [(1, 0), (2, 1), (3, 2)] ∧
    ((mainHandlerStep slowClient
      (.message { message := hello, connection := 0 })).world.heap 2).output.sent = [] := by
  decide

/-! ## Teardown -/

theorem close_of_open (w : World) (conn : Nat) (hOpen : (w.heap conn).isOpen = true)
    (hChan : (w.heap conn).output.closed = false) :
    Connection.close w conn =
      .done (clearOpen ((closeStream (closeNotify w conn) conn).setConn conn
        { (closeStream (closeNotify w conn) conn).heap conn with
          output := { ((closeStream (closeNotify w conn) conn).heap conn).output with
            closed := true, receiver := false } }) conn) := by
  have h : ((closeStream (closeNotify w conn) conn).heap conn).output.closed = false := by
    simp [closeStream, closeNotify, setConn_heap, hChan]
  simp only [Connection.close, hOpen, if_true, closeOutput, h]
  rfl

theorem close_of_closed (w : World) (conn : Nat) (hOpen : (w.heap conn).isOpen = false) :
    Connection.close w conn = .done w := by
  simp [Connection.close, hOpen]

theorem closeTimes_of_closed (conn : Nat) (w : World) (hOpen : (w.heap conn).isOpen = false) :
    ∀ n, closeTimes conn n w = .done w := by
  intro n
  induction n with
  | zero => rfl
  | succ n ih => simp only [closeTimes, close_of_closed w conn hOpen, ih]

/-- One call of `close` run statement by statement, with no statement of
another call in between, is the method `close`. -/
theorem closeConcurrently_alone (conn : Nat) (w : World) (b : ClosePc) :
    (closeConcurrently conn w .test b [false, false, false, false, false]).1 =
      Connection.close w conn := by
  by_cases hOpen : (w.heap conn).isOpen = true
  · by_cases hChan : ((closeStream (closeNotify w conn) conn).heap conn).output.closed = true
    · simp [closeConcurrently, closeStep, Connection.close, hOpen, closeOutput, hChan]
    · simp [closeConcurrently, closeStep, Connection.close, hOpen, closeOutput, hChan]
  · simp [closeConcurrently, closeStep, Connection.close, hOpen]

/-- C5. On a connection that is open (flag set, queue not closed) the first
call of `close` returns, has sent exactly one `Disconnected` event, called
`Close()` on the stream once, closed the queue and cleared the flag, and has
changed nothing else; the second call returns the same state, and so does
every number of calls after the first. -/
theorem close_idempotent (w : World) (conn : Nat)
    (hOpen : (w.heap conn).isOpen = true)
    (hChan : (w.heap conn).output.closed = false) :
    ∃ w1, Connection.close w conn = .done w1 ∧
      w1.server.events =
        w.server.events ++ [{ eventType := kConnectionClosed, connection := conn }] ∧
      (w1.heap conn).connection.closeCalls = (w.heap conn).connection.closeCalls + 1 ∧
      (w1.heap conn).output.closed = true ∧
      (w1.heap conn).isOpen = false ∧
      (w1.heap conn).id = (w.heap conn).id ∧
      (w1.heap conn).output.sent = (w.heap conn).output.sent ∧
      (∀ q, q ≠ conn → w1.heap q = w.heap q) ∧
      w1.server.messages = w.server.messages ∧
      w1.server.connections = w.server.connections ∧
      w1.started = w.started ∧
      Connection.close w1 conn = .done w1 ∧
      closeTimes conn 2 w = .done w1 ∧
      ∀ n, closeTimes conn (n + 1) w = .done w1 := by
  have h1 := close_of_open w conn hOpen hChan
  have hcl : ((clearOpen ((closeStream (closeNotify w conn) conn).setConn conn
        { (closeStream (closeNotify w conn) conn).heap conn with
          output := { ((closeStream (closeNotify w conn) conn).heap conn).output with
            closed := true, receiver := false } }) conn).heap conn).isOpen = false := by
    simp [clearOpen, setConn_heap]
  refine ⟨_, h1, ?_, ?_, ?_, hcl, ?_, ?_, ?_, ?_, ?_, ?_, close_of_closed _ _ hcl, ?_, ?_⟩
  · rfl
  · simp [clearOpen, closeStream, closeNotify, setConn_heap]
  · simp [clearOpen, closeStream, closeNotify, setConn_heap]
  · simp [clearOpen, closeStream, closeNotify, setConn_heap]
  · simp [clearOpen, closeStream, closeNotify, setConn_heap]
  · intro q hq
    simp [clearOpen, closeStream, closeNotify, setConn_heap, hq]
  · rfl
  · rfl
  · rfl
  · simp only [closeTimes, h1, close_of_closed _ _ hcl]
  · intro n
    simp only [closeTimes, h1]
    exact closeTimes_of_closed conn _ hcl n

/-- C5, witness: the connection at address 0 of `readyWorld` is open; two
calls of `close` leave one `Disconnected(0)` event, one `Close()` call, the
queue closed and the flag cleared. -/
theorem close_idempotent_witness :
    ∃ w1, closeTimes 0 2 readyWorld = .done w1 ∧
      w1.server.events = [{ eventType := kConnectionClosed, connection := 0 }] ∧
      (w1.heap 0).connection.closeCalls = 1 ∧
      (w1.heap 0).output.closed = true ∧
      (w1.heap 0).isOpen = false := by
  obtain ⟨w1, _, h2, h3, h4, h5, _, _, _, _, _, _, _, h6, _⟩ :=
    close_idempotent readyWorld 0 rfl rfl
  exact ⟨w1, h6, h2, h3, h4, h5⟩

/-- C10, the code at a failing schedule. Both goroutines call `close` on the
open connection at address 0 of `readyWorld`; `handleOutput` tests
`conn.open` after `handleInput` has closed the queue and before it has
cleared the flag. The second `close(conn.output)` panics, after two
`Disconnected` events and two `Close()` calls. Run one after the other, the
same two calls give one event and one `Close()` call. -/
theorem concurrent_close_double_closes :
    (closeConcurrently 0 readyWorld .test .test racySchedule).1.isPanic = true ∧
    (closeConcurrently 0 readyWorld .test .test racySchedule).2 = (.clear, .output) ∧
    (closeConcurrently 0 readyWorld .test .test racySchedule).1.world.server.events =
      [{ eventType := kConnectionClosed, connection := 0 },
       { eventType := kConnectionClosed, connection := 0 }] ∧
    ((closeConcurrently 0 readyWorld .test .test racySchedule).1.world.heap 0).connection.closeCalls
      = 2 ∧
    (closeConcurrently 0 readyWorld .test .test serialSchedule).1.isDone = true ∧
    (closeConcurrently 0 readyWorld .test .test serialSchedule).2 = (.returned, .returned) ∧
    (closeConcurrently 0 readyWorld .test .test serialSchedule).1.world.server.events =
      [{ eventType := kConnectionClosed, connection := 0 }] ∧
    ((closeConcurrently 0 readyWorld .test .test serialSchedule).1.world.heap 0).connection.closeCalls
      = 1 := by
  decide

/-- C6, the code at a failing run. After the moves of `teardownBeforeMessage`
the torn-down connection of identity 1 is still in the table with its queue
closed, its `Disconnected` event and the message "hello" of identity 2 are
both waiting, and nothing has failed. When the `select` of `mainHandler` then
takes the message, the fan-out sends on the closed queue and the process dies
of the panic. -/
theorem fan_out_panics_on_torn_down_member :
    (System.run System.start teardownBeforeMessage).map
        (fun s => (s.crashed, s.world.server.connections, s.world.server.events,
          s.world.server.messages, (s.world.heap 0).id, (s.world.heap 0).output.closed,
          (s.world.heap 0).isOpen)) =
      some (false, [(1, 0), (2, 1)], [{ eventType := kConnectionClosed, connection := 0 }],
        [{ message := hello, connection := 1 }], 1, true, false) ∧
    (System.run System.start (teardownBeforeMessage ++ [.selectMessage])).map
        (fun s => s.crashed) = some true ∧
    (System.run System.start (teardownBeforeMessage ++ [.selectEvent, .selectMessage])).map
        (fun s => (s.crashed, s.world.server.connections)) = some (false, [(2, 1)]) :=
  ⟨rfl, rfl, rfl⟩

/-! ## `handleInput` and `handleOutput` -/

theorem readInto_length (buffer data : Bytes) :
    (readInto buffer data).length = buffer.length := by
  simp only [readInto, List.length_append, List.length_take, List.length_drop]
  omega

theorem inputMessage_message (conn : Nat) (buffer : Bytes) (r : ReadResult)
    (h : r.data.length ≤ buffer.length) :
    inputMessage conn buffer r = { message := r.data, connection := conn } := by
  have h1 : readCount buffer r.data = r.data.length := by
    simp only [readCount]; omega
  have h2 : List.take buffer.length r.data = r.data := List.take_of_length_le h
  simp only [inputMessage, readInto, h1, h2, List.take_left' rfl]

/-- The message built from a read holds the bytes read, up to the size of the
buffer, whatever the buffer held before. -/
theorem inputMessage_take (conn : Nat) (buffer : Bytes) (r : ReadResult) :
    inputMessage conn buffer r =
      { message := r.data.take buffer.length, connection := conn } := by
  simp only [inputMessage, readInto, readCount]
  rw [List.take_left' (by simp [List.length_take, Nat.min_comm])]

theorem handleInputLoop_spec (conn : Nat) (reads : List ReadResult) :
    ∀ buffer : Bytes, buffer.length = bufferSize →
      (∀ r ∈ reads, r.data.length ≤ bufferSize) →
      (handleInputLoop conn buffer reads).forwarded =
        (reads.takeWhile (fun r => !r.err)).map
          (fun r => { message := r.data, connection := conn }) ∧
      (handleInputLoop conn buffer reads).closeCalled = reads.any (fun r => r.err) ∧
      (handleInputLoop conn buffer reads).reads =
        (reads.takeWhile (fun r => !r.err)).length + (if reads.any (fun r => r.err) then 1 else 0) := by
  induction reads with
  | nil => intro buffer _ _; simp [handleInputLoop]
  | cons r rest ih =>
    intro buffer hlen hb
    unfold handleInputLoop
    by_cases he : r.err = true
    · simp [he]
    · have he2 : r.err = false := by simpa using he
      obtain ⟨h1, h2, h3⟩ := ih (readInto buffer r.data)
        (by rw [readInto_length]; exact hlen)
        (fun x hx => hb x (List.mem_cons_of_mem _ hx))
      have hm := inputMessage_message conn buffer r
        (by rw [hlen]; exact hb r (List.mem_cons_self _ _))
      simp only [he2, Bool.false_eq_true, if_false, h1, h2, h3, hm, List.takeWhile_cons,
        Bool.not_false, if_true, List.map_cons, List.any_cons, Bool.false_or, List.length_cons]
      refine ⟨trivial, trivial, ?_⟩
      omega

/-- C7. Let every `Read` return at most as many bytes as the buffer holds.
Then `handleInput` forwards, for the reads before the first read error and in
their order, one message each, with this connection as sender and exactly the
bytes of that read as payload (so one for each read of `n > 0` bytes, and one
empty message for a read of no bytes); it forwards nothing for the failed
read, makes no `Read` call after it, and calls `close` exactly when a read
has failed. -/
theorem inbound_relay (conn : Nat) (reads : List ReadResult)
    (hBound : ∀ r ∈ reads, r.data.length ≤ bufferSize) :
    (handleInput conn reads).forwarded =
      (reads.takeWhile (fun r => !r.err)).map
        (fun r => { message := r.data, connection := conn }) ∧
    (handleInput conn reads).forwarded.filter (fun m => !m.message.isEmpty) =
      ((reads.takeWhile (fun r => !r.err)).filter (fun r => !r.data.isEmpty)).map
        (fun r => { message := r.data, connection := conn }) ∧
    (handleInput conn reads).closeCalled = reads.any (fun r => r.err) ∧
    (handleInput conn reads).reads =
      (reads.takeWhile (fun r => !r.err)).length + (if reads.any (fun r => r.err) then 1 else 0) := by
  obtain ⟨h1, h2, h3⟩ := handleInputLoop_spec conn reads newBuffer
    (by simp [newBuffer]) hBound
  refine ⟨h1, ?_, h2, h3⟩
  unfold handleInput
  rw [h1, List.filter_map]
  rfl

/-- C7, witness: reads of "hello", of no bytes and of "hello", then a failed
read, then one more read. -/
theorem inbound_relay_witness :
    (handleInput 3
        [{ data := hello, err := false }, { data := [], err := false },
          { data := hello, err := false }, { data := hello, err := true },
          { data := hello, err := false }]).forwarded =
      [{ message := hello, connection := 3 }, { message := [], connection := 3 },
        { message := hello, connection := 3 }] ∧
    (handleInput 3
        [{ data := hello, err := false }, { data := [], err := false },
          { data := hello, err := false }, { data := hello, err := true },
          { data := hello, err := false }]).closeCalled = true ∧
    (handleInput 3
        [{ data := hello, err := false }, { data := [], err := false },
          { data := hello, err := false }, { data := hello, err := true },
          { data := hello, err := false }]).reads = 4 := by
  obtain ⟨h1, _, h3, h4⟩ := inbound_relay 3
    [{ data := hello, err := false }, { data := [], err := false },
      { data := hello, err := false }, { data := hello, err := true },
      { data := hello, err := false }]
    (by
      intro r hr
      simp only [List.mem_cons, List.mem_singleton, List.not_mem_nil, or_false] at hr
      rcases hr with rfl | rfl | rfl | rfl | rfl <;> simp [hello, bufferSize])
  exact ⟨h1, h3, h4⟩

theorem copyInto_take (buffer message : Bytes) :
    (copyInto buffer message).1.take (copyInto buffer message).2 = message.take buffer.length := by
  simp only [copyInto]
  exact List.take_left' (by simp [List.length_take])

theorem copyInto_length (buffer message : Bytes) :
    (copyInto buffer message).1.length = buffer.length := by
  simp only [copyInto, List.length_append, List.length_take, List.length_drop]
  omega

/-- While no `Write` fails, every received payload is passed to one `Write`,
in order, cut to the size of the buffer. -/
theorem handleOutputLoop_writes (rest : List (Bytes × Bool)) (payloads : List Bytes) :
    ∀ buffer : Bytes, buffer.length = bufferSize →
      ∃ more, (handleOutputLoop buffer (payloads.map (fun m => (m, false)) ++ rest)).writes =
          payloads.map (List.take bufferSize) ++ more ∧
        (rest = [] → more = []) := by
  induction payloads with
  | nil =>
    intro buffer _
    refine ⟨(handleOutputLoop buffer rest).writes, by simp, ?_⟩
    intro h
    subst h
    rfl
  | cons m ms ih =>
    intro buffer hlen
    obtain ⟨more, h1, h2⟩ := ih (copyInto buffer m).1 (by rw [copyInto_length]; exact hlen)
    refine ⟨more, ?_, h2⟩
    simp only [List.map_cons, List.cons_append, handleOutputLoop, Bool.false_eq_true, if_false,
      copyInto_take, hlen]
    exact congrArg (List.cons (List.take bufferSize m)) h1

theorem handleOutputLoop_closeCalled (received : List (Bytes × Bool)) :
    ∀ buffer : Bytes, (handleOutputLoop buffer received).closeCalled = true := by
  induction received with
  | nil => intro buffer; rfl
  | cons e rest ih =>
    intro buffer
    obtain ⟨m, err⟩ := e
    unfold handleOutputLoop
    by_cases h : err = true
    · simp [h]
    · simp [h, ih]

/-- C8, as amended. For payloads of at most 1024 bytes each, as long as no
`Write` fails the byte strings `handleOutput` passes to `Write` are those
payloads: same order, one `Write` for each, each in full. When the queue is
then closed these are all its writes and it calls `close`. -/
theorem outbound_delivery (payloads : List Bytes) (rest : List (Bytes × Bool))
    (hLen : ∀ m ∈ payloads, m.length ≤ bufferSize) :
    (handleOutput (payloads.map (fun m => (m, false)))).writes = payloads ∧
    (handleOutput (payloads.map (fun m => (m, false)))).closeCalled = true ∧
    ∃ more, (handleOutput (payloads.map (fun m => (m, false)) ++ rest)).writes =
      payloads ++ more := by
  have hmap : payloads.map (List.take bufferSize) = payloads := by
    conv_rhs => rw [← List.map_id payloads]
    apply List.map_congr_left
    intro m hm
    exact List.take_of_length_le (hLen m hm)
  refine ⟨?_, handleOutputLoop_closeCalled _ _, ?_⟩
  · obtain ⟨more, h1, h2⟩ := handleOutputLoop_writes [] payloads newBuffer (by simp [newBuffer])
    rw [List.append_nil] at h1
    unfold handleOutput
    rw [h1, h2 rfl, hmap, List.append_nil]
  · obtain ⟨more, h1, _⟩ := handleOutputLoop_writes rest payloads newBuffer (by simp [newBuffer])
    exact ⟨more, by unfold handleOutput; rw [h1, hmap]⟩

/-- C8, witness: "hello", an empty payload and "hello" again, then a payload
whose `Write` fails. -/
theorem outbound_delivery_witness :
    (handleOutput [(hello, false), ([], false), (hello, false)]).writes = [hello, [], hello] ∧
    (handleOutput [(hello, false), ([], false), (hello, false)]).closeCalled = true ∧
    ∃ more, (handleOutput
      [(hello, false), ([], false), (hello, false), (hello, true), (hello, false)]).writes =
        [hello, [], hello] ++ more :=
  outbound_delivery [hello, [], hello] [(hello, true), (hello, false)]
    (by
      intro m hm
      simp only [List.mem_cons, List.mem_singleton, List.not_mem_nil, or_false] at hm
      rcases hm with rfl | rfl | rfl <;> simp [hello, bufferSize])

/-- C8, counterexample. A payload of 1025 bytes is passed to `Write` cut to
its first 1024 bytes: the byte string written is not the payload. -/
theorem long_payload_truncated :
    (handleOutput [(longPayload, false)]).writes = [List.replicate 1024 7] ∧
    (handleOutput [(longPayload, false)]).writes ≠ [longPayload] := by
  have h : (handleOutput [(longPayload, false)]).writes = [List.replicate 1024 7] := by
    obtain ⟨more, h1, h2⟩ := handleOutputLoop_writes [] [longPayload] newBuffer
      (by simp [newBuffer])
    rw [h2 rfl] at h1
    unfold handleOutput
    simp only [List.map_cons, List.map_nil, List.append_nil] at h1
    rw [h1]
    simp only [longPayload, bufferSize, List.take_replicate]
    rfl
  refine ⟨h, ?_⟩
  rw [h]
  intro h2
  have h3 := congrArg (fun l => l.map List.length) h2
  simp [longPayload] at h3

/-! ## `listen` -/

/-- The identity of the `i`-th object created from counter value `n` is
`n + 1 + i` reduced to a `uint32`. -/
theorem listen_ids (accepts : List (Option NetConn)) :
    ∀ n : Nat, (listen n accepts).map (fun c => c.id) =
      (List.range (successes accepts)).map (fun i => (n + 1 + i) % uint32Size) := by
  induction accepts with
  | nil => intro n; rfl
  | cons a rest ih =>
    intro n
    cases a with
    | none =>
      have h : successes (none :: rest) = successes rest := by
        simp [successes]
      rw [h]
      exact ih n
    | some conn =>
      have h : successes (some conn :: rest) = successes rest + 1 := by
        simp [successes]
      rw [h, List.range_succ_eq_map]
      simp only [listen, List.map_cons, List.map_map, ih, newConnection]
      refine congrArg₂ List.cons rfl ?_
      apply List.map_congr_left
      intro i _
      simp only [Function.comp, uint32Size]
      omega

theorem successes_manyAccepts : successes manyAccepts = uint32Size + 1 := by
  unfold successes manyAccepts
  rw [List.countP_replicate]
  rfl

/-- C1, as amended. While fewer than `2^32` connections have been accepted,
whatever the accept failures in between, the identities given to the accepted
connections are 1, 2, 3, ... in accept order: they start at 1, are strictly
increasing, and no two are the same. -/
theorem listener_identities (accepts : List (Option NetConn))
    (hFew : successes accepts < uint32Size) :
    listenIds accepts = List.range' 1 (successes accepts) ∧
    (listenIds accepts).length = successes accepts ∧
    (listenIds accepts).Pairwise (fun a b => a < b) ∧
    (listenIds accepts).Nodup ∧
    (0 < successes accepts → (listenIds accepts).head? = some 1) := by
  have h : listenIds accepts = List.range' 1 (successes accepts) := by
    unfold listenIds
    rw [listen_ids, List.range'_eq_map_range]
    apply List.map_congr_left
    intro i hi
    have hi2 : i < successes accepts := List.mem_range.mp hi
    simp only [uint32Size] at hFew ⊢
    omega
  refine ⟨h, ?_, ?_, ?_, ?_⟩
  · rw [h, List.length_range']
  · rw [h]; exact List.pairwise_lt_range' 1 _
  · rw [h]; exact List.nodup_range' 1 _
  · intro hpos
    rw [h]
    obtain ⟨k, hk⟩ := Nat.exists_eq_succ_of_ne_zero (Nat.pos_iff_ne_zero.mp hpos)
    rw [hk]
    rfl

/-- C1, witness: three accepted connections with a failed accept in between
get the identities 1, 2, 3. -/
theorem listener_identities_witness :
    listenIds [some freshConn, none, some freshConn, some freshConn] = List.range' 1 3 ∧
    (listenIds [some freshConn, none, some freshConn, some freshConn]).Nodup :=
  ⟨(listener_identities [some freshConn, none, some freshConn, some freshConn] (by decide)).1,
    (listener_identities [some freshConn, none, some freshConn, some freshConn]
      (by decide)).2.2.2.1⟩

/-- C1, counterexample. After `2^32 + 1` successful accepts the first and the
last connection both have identity 1 (the `uint32` counter has wrapped): the
identities are neither free of repetition nor strictly increasing. -/
theorem identities_repeat_after_wraparound :
    ¬ (listenIds manyAccepts).Nodup ∧
    ¬ (listenIds manyAccepts).Pairwise (fun a b => a < b) := by
  have hnd : ¬ (listenIds manyAccepts).Nodup := by
    unfold listenIds
    rw [listen_ids, successes_manyAccepts]
    intro h
    have h0 : (0 : Nat) ∈ List.range (uint32Size + 1) := by
      rw [List.mem_range]; exact Nat.succ_pos _
    have h1 : uint32Size ∈ List.range (uint32Size + 1) := by
      rw [List.mem_range]; exact Nat.lt_succ_self _
    have h2 := List.inj_on_of_nodup_map h h0 h1 (by
      show (0 + 1 + 0) % uint32Size = (0 + 1 + uint32Size) % uint32Size
      rw [Nat.add_mod_right])
    have h3 : uint32Size ≠ 0 := by unfold uint32Size; exact Nat.succ_ne_zero _
    exact h3 h2.symm
  refine ⟨hnd, fun h => hnd ?_⟩
  exact h.imp (fun hab => Nat.ne_of_lt hab)

/-! ## Reachable states -/

/-- Every step of the program keeps the keys of the table distinct and every
connection stored under its own identity. -/
theorem step_keeps_table (d d1 : Dispatcher) (s : Step) (h : d.step s = some d1)
    (hKeys : (mapKeys d.world.server.connections).Nodup)
    (hId : ∀ e ∈ d.world.server.connections, e.1 = (d.world.heap e.2).id) :
    (mapKeys d1.world.server.connections).Nodup ∧
      ∀ e ∈ d1.world.server.connections, e.1 = (d1.world.heap e.2).id := by
  obtain ⟨hid, htab⟩ := step_table d d1 s h
  have hsame : d1.world.server.connections = d.world.server.connections →
      (mapKeys d1.world.server.connections).Nodup ∧
        ∀ e ∈ d1.world.server.connections, e.1 = (d1.world.heap e.2).id := by
    intro hc
    rw [hc]
    exact ⟨hKeys, fun e he => by rw [hid]; exact hId e he⟩
  cases s with
  | iterate => exact hsame htab
  | reader conn => exact hsame htab
  | closing conn pc => exact hsame htab
  | select x =>
    cases x with
    | idle => exact hsame htab
    | message msg => exact hsame htab
    | event evt =>
      have ht := mainHandlerStep_table d.world (.event evt) hKeys hId
      obtain ⟨w1, h1, h2, h3⟩ := mainHandlerStep_event d.world evt
      rw [h1] at ht
      simp only [Outcome.world] at ht
      simp only at htab
      rw [← h3] at htab
      rw [htab]
      refine ⟨ht.1, fun e he => ?_⟩
      rw [hid, ht.2 e he, h2]

/-- From an empty table, every table a run of `mainHandler` reaches has
distinct keys and stores every connection under its own identity. -/
theorem mainHandler_table (steps : List Step) :
    ∀ d d1 : Dispatcher, mainHandler d steps = some d1 →
      (mapKeys d.world.server.connections).Nodup →
      (∀ e ∈ d.world.server.connections, e.1 = (d.world.heap e.2).id) →
      (mapKeys d1.world.server.connections).Nodup ∧
        ∀ e ∈ d1.world.server.connections, e.1 = (d1.world.heap e.2).id := by
  induction steps with
  | nil =>
    intro d d1 h hk hi
    simp only [mainHandler, Option.some.injEq] at h
    subst h
    exact ⟨hk, hi⟩
  | cons s steps ih =>
    intro d d1 h hk hi
    simp only [mainHandler] at h
    cases hs : d.step s with
    | none => rw [hs] at h; cases h
    | some d2 =>
      rw [hs] at h
      obtain ⟨hk2, hi2⟩ := step_keeps_table d d2 s hs hk hi
      exact ih d2 d1 h hk2 hi2

/-- While `close` runs without interruption, a connection whose flag is set
has its queue open: every move keeps this. -/
theorem step_open_queue (s s1 : System) (m : Move) (h : s.step m = some s1)
    (hinv : ∀ p, (s.world.heap p).isOpen = true → (s.world.heap p).output.closed = false) :
    ∀ p, (s1.world.heap p).isOpen = true → (s1.world.heap p).output.closed = false := by
  cases m with
  | accept result =>
    cases result with
    | none =>
      simp only [System.step] at h
      split_ifs at h
      cases h
      exact hinv
    | some conn =>
      simp only [System.step] at h
      split_ifs at h
      cases h
      intro p hp
      simp only [setConn_heap] at hp ⊢
      split_ifs at hp ⊢ with hq
      · rfl
      · exact hinv p hp
  | selectEvent =>
    simp only [System.step] at h
    split_ifs at h
    cases he : s.world.server.events with
    | nil => rw [he] at h; cases h
    | cons evt rest =>
      rw [he] at h
      simp only [mainHandlerStep] at h
      split_ifs at h <;> cases h <;> exact hinv
  | selectMessage =>
    simp only [System.step] at h
    split_ifs at h
    cases he : s.world.server.messages with
    | nil => rw [he] at h; cases h
    | cons msg rest =>
      rw [he] at h
      simp only [mainHandlerStep] at h
      have hf := fun p => (fanOut_frame msg.connection msg.message s.world.server.connections
        { s.world with server := { s.world.server with messages := rest } }).2.2 p
      cases ho : fanOut msg.connection msg.message
          { s.world with server := { s.world.server with messages := rest } }
          s.world.server.connections with
      | done w =>
        rw [ho] at h hf
        cases h
        intro p hp
        obtain ⟨_, _, h3, h4⟩ := hf p
        simp only [Outcome.world] at h3 h4
        rw [h4]
        rw [h3] at hp
        exact hinv p hp
      | panic w =>
        rw [ho] at h hf
        cases h
        intro p hp
        obtain ⟨_, _, h3, h4⟩ := hf p
        simp only [Outcome.world] at h3 h4
        rw [h4]
        rw [h3] at hp
        exact hinv p hp
      | blocked c w => rw [ho] at h; cases h
  | read conn r =>
    simp only [System.step] at h
    split_ifs at h with h1 h2
    · by_cases hopen : (s.world.heap conn).isOpen = true
      · rw [close_of_open s.world conn hopen (hinv conn hopen)] at h
        cases h
        intro p hp
        by_cases hq : p = conn
        · subst hq
          simp [clearOpen, setConn_heap] at hp
        · simp only [clearOpen, closeStream, closeNotify, setConn_heap, if_neg hq] at hp ⊢
          exact hinv p hp
      · rw [close_of_closed s.world conn (by simpa using hopen)] at h
        cases h
        exact hinv
    · cases h
      exact hinv
  | receive conn =>
    simp only [System.step] at h
    split_ifs at h
    cases h
    intro p hp
    simp only [setConn_heap] at hp ⊢
    split_ifs at hp ⊢ with hq
    · subst hq
      exact hinv p hp
    · exact hinv p hp

/-- In every state the goroutines reach with `close` running without
interruption, a connection whose flag is set has its queue open. -/
theorem reachable_open_queue (ms : List Move) :
    ∀ s s1 : System, System.run s ms = some s1 →
      (∀ p, (s.world.heap p).isOpen = true → (s.world.heap p).output.closed = false) →
      ∀ p, (s1.world.heap p).isOpen = true → (s1.world.heap p).output.closed = false := by
  induction ms with
  | nil =>
    intro s s1 h hinv
    simp only [System.run, Option.some.injEq] at h
    subst h
    exact hinv
  | cons m ms ih =>
    intro s s1 h hinv
    simp only [System.run] at h
    cases hs : s.step m with
    | none => rw [hs] at h; cases h
    | some s2 =>
      rw [hs] at h
      exact ih s2 s1 h (step_open_queue s s2 m hs hinv)

/-- The scenario of three clients: they get the identities 1, 2, 3; "hello"
from client 2 reaches the queues of clients 1 and 3 and not its own. -/
theorem three_clients_scenario :
    (System.run System.start
      [.accept (some freshConn), .accept (some freshConn), .accept (some freshConn),
        .selectEvent, .selectEvent, .selectEvent, .receive 0, .receive 1, .receive 2,
        .read 1 { data := hello, err := false }, .selectMessage]).map
      (fun s => (s.crashed, s.world.server.connections, (s.world.heap 0).output.sent,
        (s.world.heap 1).output.sent, (s.world.heap 2).output.sent)) =
    some (false, [(1, 0), (2, 1), (3, 2)], [hello], [], [hello]) := rfl

end ChatServer
